import Mathlib

/-!
# Verification of the `cast-interop` bundle/address codecs and relay waits

This file gives a shallow embedding, in Lean 4, of the core pure logic of the
`cast-interop` repository:

* the interoperable-address codec (`src/encode.rs`);
* the canonical ABI encoding/decoding of `InteropBundle` (`src/types.rs`,
  `src/abi.rs`, via the alloy `abi_encode`/`abi_decode` conventions);
* the bundle/call status decoders (`src/abi.rs`, `src/commands/status.rs`);
* the revert-reason decoder (`src/commands/bundle_action.rs`);
* the polling wait loops of the relay pipeline (`src/rpc.rs`,
  `src/commands/relay.rs`);
* the proof-message override performed before building verify/execute
  calldata (`src/commands/bundle_action.rs`, `src/commands/relay.rs`).

Machine integers are modelled as `Nat` with explicit bounds; byte strings as
`List Nat` (each element `< 256`); fallible Rust functions return
`Except String _`; a Rust function that can panic returns
`Option (Except String _)` with `none` marking the panic.
-/

namespace CastInterop

/-! ## Byte-string utilities -/

/-- Big-endian interpretation of a byte list as a natural number
(the semantics of `U256::from_be_slice` on slices that fit). -/
def beBytesToNat (bs : List Nat) : Nat :=
  bs.foldl (fun acc b => acc * 256 + b) 0

/-- Big-endian byte representation of `n % 256^w`, exactly `w` bytes wide
(the semantics of `U256::to_be_bytes::<32>` for `w = 32`). -/
def natToBeBytes : Nat → Nat → List Nat
  | 0, _ => []
  | w + 1, n => natToBeBytes w (n / 256) ++ [n % 256]

theorem beBytesToNat_nil : beBytesToNat [] = 0 := rfl

theorem foldl_be_eq (bs : List Nat) (acc : Nat) :
    bs.foldl (fun acc b => acc * 256 + b) acc =
      acc * 256 ^ bs.length + beBytesToNat bs := by
  induction bs generalizing acc with
  | nil => simp [beBytesToNat]
  | cons b rest ih =>
      simp only [List.foldl_cons, beBytesToNat, List.length_cons, Nat.zero_mul,
        Nat.zero_add]
      rw [ih (acc * 256 + b), ih b]
      ring

theorem beBytesToNat_cons (b : Nat) (bs : List Nat) :
    beBytesToNat (b :: bs) = b * 256 ^ bs.length + beBytesToNat bs := by
  simpa [beBytesToNat] using foldl_be_eq bs b

theorem beBytesToNat_append (xs ys : List Nat) :
    beBytesToNat (xs ++ ys) =
      beBytesToNat xs * 256 ^ ys.length + beBytesToNat ys := by
  simp only [beBytesToNat, List.foldl_append]
  exact foldl_be_eq ys _

theorem beBytesToNat_zero_cons (bs : List Nat) :
    beBytesToNat (0 :: bs) = beBytesToNat bs := by
  simp [beBytesToNat_cons]

@[simp] theorem natToBeBytes_length (w n : Nat) :
    (natToBeBytes w n).length = w := by
  induction w generalizing n with
  | zero => rfl
  | succ w ih => simp [natToBeBytes, ih]

theorem beBytesToNat_natToBeBytes (w n : Nat) :
    beBytesToNat (natToBeBytes w n) = n % 256 ^ w := by
  induction w generalizing n with
  | zero => simp [natToBeBytes, beBytesToNat, Nat.mod_one]
  | succ w ih =>
      rw [natToBeBytes, beBytesToNat_append, ih]
      have h2 : beBytesToNat [n % 256] = n % 256 := by
        simp [beBytesToNat]
      have h3 : (256:ℕ) ^ (w + 1) = 256 * 256 ^ w := by
        rw [pow_succ]; ring
      rw [h2, h3, Nat.mod_mul]
      simp
      ring

theorem beBytesToNat_lt (bs : List Nat) (h : ∀ b ∈ bs, b < 256) :
    beBytesToNat bs < 256 ^ bs.length := by
  induction bs with
  | nil => simp [beBytesToNat]
  | cons b rest ih =>
      have hb : b < 256 := h b (List.mem_cons_self _ _)
      have hrest := ih (fun x hx => h x (List.mem_cons_of_mem _ hx))
      rw [beBytesToNat_cons]
      calc b * 256 ^ rest.length + beBytesToNat rest
          < b * 256 ^ rest.length + 256 ^ rest.length := by omega
        _ = (b + 1) * 256 ^ rest.length := by ring
        _ ≤ 256 * 256 ^ rest.length := by
            exact Nat.mul_le_mul_right _ (by omega)
        _ = 256 ^ (b :: rest).length := by
            rw [List.length_cons, Nat.pow_succ']

theorem natToBeBytes_mem_lt (w n : Nat) : ∀ b ∈ natToBeBytes w n, b < 256 := by
  induction w generalizing n with
  | zero => simp [natToBeBytes]
  | succ w ih =>
      intro b hb
      rw [natToBeBytes] at hb
      rcases List.mem_append.mp hb with h | h
      · exact ih _ _ h
      · simp only [List.mem_singleton] at h
        subst h
        exact Nat.mod_lt _ (by norm_num)

/-- Reading a byte at an index, with the Rust slice-indexing semantics on
in-bounds accesses (`0` out of bounds; all uses are bounds-checked first). -/
def readByte (bs : List Nat) (i : Nat) : Nat := bs.getD i 0

theorem readByte_append (pre : List Nat) (x : Nat) (post : List Nat) (i : Nat)
    (h : i = pre.length) : readByte (pre ++ x :: post) i = x := by
  subst h
  rw [readByte, List.getD_eq_getElem?_getD,
    List.getElem?_append_right (Nat.le_refl _)]
  simp

theorem drop_append_len (pre rest : List Nat) (n : Nat) (h : n = pre.length) :
    (pre ++ rest).drop n = rest := by
  subst h
  simp

theorem take_append_len (xs ys : List Nat) (n : Nat) (h : n = xs.length) :
    (xs ++ ys).take n = xs := by
  subst h
  simp

/-! ## Interoperable address codec (`src/encode.rs`) -/

/-- `EVM_V1_HEADER` from `src/encode.rs`. -/
def EVM_V1_HEADER : List Nat := [0x00, 0x01, 0x00, 0x00]

/-- `EVM_V1_ADDRESS_ONLY_HEADER` from `src/encode.rs`. -/
def EVM_V1_ADDRESS_ONLY_HEADER : List Nat := [0x00, 0x01, 0x00, 0x00, 0x00]

/-- `to_chain_reference` from `src/encode.rs`: a zero chain id is a single
zero byte; otherwise the 32-byte big-endian encoding with leading zero bytes
stripped (`while bytes.first() == Some(&0) { bytes.remove(0) }`), falling back
to a single zero byte if that left nothing. -/
def to_chain_reference (chainId : Nat) : List Nat :=
  if chainId = 0 then [0]
  else
    let bytes := (natToBeBytes 32 chainId).dropWhile (· == 0)
    if bytes.isEmpty then [0] else bytes

/-- `encode_evm_v1_with_address` from `src/encode.rs`. The address is the
20-byte big-endian value of `Address::as_slice`. -/
def encode_evm_v1_with_address (chainId addr : Nat) : List Nat :=
  let chainRef := to_chain_reference chainId
  EVM_V1_HEADER ++ [chainRef.length] ++ chainRef ++ [20] ++ natToBeBytes 20 addr

/-- `encode_evm_v1_chain_only` from `src/encode.rs`. -/
def encode_evm_v1_chain_only (chainId : Nat) : List Nat :=
  let chainRef := to_chain_reference chainId
  EVM_V1_HEADER ++ [chainRef.length] ++ chainRef ++ [0]

/-- `encode_evm_v1_address_only` from `src/encode.rs`. -/
def encode_evm_v1_address_only (addr : Nat) : List Nat :=
  EVM_V1_ADDRESS_ONLY_HEADER ++ [20] ++ natToBeBytes 20 addr

/-- `U256::from_be_slice` (ruint): converts a big-endian slice, panicking when
the slice does not fit in 32 bytes. `none` models the panic. -/
def u256_from_be_slice (bs : List Nat) : Option Nat :=
  if bs.length > 32 then none else some (beBytesToNat bs)

/-- `decode_evm_v1_address` from `src/encode.rs`, byte for byte: the checks
appear in source order; the outer `none` marks the panic that
`U256::from_be_slice` raises when the declared chain-reference length exceeds
32 while the buffer is long enough to reach that call. -/
def decode_evm_v1_address (bytes : List Nat) :
    Option (Except String (Nat × Option Nat)) :=
  if bytes.length < 6 then some (.error "erc-7930 data too short")
  else if ¬ bytes.take 4 = EVM_V1_HEADER then
    some (.error "unsupported ERC-7930 header")
  else
    let chainLen := readByte bytes 4
    let chainStart := 5
    let chainEnd := chainStart + chainLen
    if bytes.length < chainEnd + 1 then
      some (.error "erc-7930 data missing address length")
    else
      let chainRef := (bytes.drop chainStart).take chainLen
      let addrLen := readByte bytes chainEnd
      let addrStart := chainEnd + 1
      let addrEnd := addrStart + addrLen
      if bytes.length < addrEnd then some (.error "erc-7930 data truncated")
      else
        match
          (if chainLen = 0 then some 0 else u256_from_be_slice chainRef) with
        | none => none
        | some chainId =>
            if addrLen = 0 then some (.ok (chainId, none))
            else if addrLen = 20 then
              some (.ok (chainId, some (beBytesToNat
                ((bytes.drop addrStart).take addrLen))))
            else some (.error ("unsupported address length"))

/-! ### Facts about `to_chain_reference` -/

theorem dropWhile_zero_value (bs : List Nat) :
    beBytesToNat (bs.dropWhile (· == 0)) = beBytesToNat bs := by
  induction bs with
  | nil => rfl
  | cons b rest ih =>
      rw [List.dropWhile_cons]
      by_cases hb : b = 0
      · subst hb
        simp only [beq_self_eq_true, if_true]
        rw [ih, beBytesToNat_zero_cons]
      · simp [hb]

theorem dropWhile_head_not (p : Nat → Bool) (bs : List Nat) (hd : Nat)
    (tl : List Nat) (h : bs.dropWhile p = hd :: tl) : p hd = false := by
  induction bs with
  | nil => simp [List.dropWhile] at h
  | cons b rest ih =>
      rw [List.dropWhile_cons] at h
      by_cases hb : p b
      · simp [hb] at h; exact ih h
      · simp [hb] at h; rw [← h.1]; simpa using hb

theorem to_chain_reference_value (c : Nat) (hc : c < 2 ^ 256) :
    beBytesToNat (to_chain_reference c) = c := by
  by_cases h0 : c = 0
  · subst h0; simp [to_chain_reference, beBytesToNat]
  · have hval : beBytesToNat ((natToBeBytes 32 c).dropWhile (· == 0)) = c := by
      rw [dropWhile_zero_value, beBytesToNat_natToBeBytes]
      exact Nat.mod_eq_of_lt (by norm_num at hc ⊢; omega)
    have hne : ¬ ((natToBeBytes 32 c).dropWhile (· == 0)).isEmpty = true := by
      intro h
      rw [List.isEmpty_iff] at h
      rw [h] at hval
      exact h0 hval.symm
    rw [to_chain_reference, if_neg h0]
    simp only [hne, if_neg, Bool.false_eq_true, not_false_eq_true,
      if_neg hne]
    exact hval

theorem to_chain_reference_zero : to_chain_reference 0 = [0] := rfl

theorem to_chain_reference_ne_nil (c : Nat) : to_chain_reference c ≠ [] := by
  rw [to_chain_reference]
  by_cases h0 : c = 0
  · simp [h0]
  · rw [if_neg h0]
    by_cases he : ((natToBeBytes 32 c).dropWhile (· == 0)).isEmpty = true
    · simp [he]
    · have : (natToBeBytes 32 c).dropWhile (· == 0) ≠ [] := by
        simpa [List.isEmpty_iff] using he
      simpa [he] using this

theorem to_chain_reference_length_le (c : Nat) :
    (to_chain_reference c).length ≤ 32 := by
  rw [to_chain_reference]
  by_cases h0 : c = 0
  · simp [h0]
  · rw [if_neg h0]
    by_cases he : ((natToBeBytes 32 c).dropWhile (· == 0)).isEmpty = true
    · simp [he]
    · simp only [he, if_neg, Bool.false_eq_true, not_false_eq_true, if_neg he]
      calc ((natToBeBytes 32 c).dropWhile (· == 0)).length
          ≤ (natToBeBytes 32 c).length :=
            (List.dropWhile_suffix _).sublist.length_le
        _ = 32 := natToBeBytes_length 32 c

theorem to_chain_reference_head_ne_zero (c : Nat) (hc : c < 2 ^ 256)
    (h0 : c ≠ 0) (hd : Nat) (tl : List Nat)
    (h : to_chain_reference c = hd :: tl) : hd ≠ 0 := by
  rw [to_chain_reference, if_neg h0] at h
  by_cases he : ((natToBeBytes 32 c).dropWhile (· == 0)).isEmpty = true
  · -- the `[0]` fallback is dead for `c ≠ 0 < 2^256`: stripping zero bytes
    -- preserves the big-endian value, which would then be `0`.
    exfalso
    rw [List.isEmpty_iff] at he
    have hval := dropWhile_zero_value (natToBeBytes 32 c)
    rw [he, beBytesToNat_natToBeBytes] at hval
    have : c % 256 ^ 32 = c := Nat.mod_eq_of_lt (by norm_num at hc ⊢; omega)
    rw [this] at hval
    exact h0 hval.symm
  · simp only [he, if_neg, Bool.false_eq_true, not_false_eq_true, if_neg he] at h
    have := dropWhile_head_not (· == 0) (natToBeBytes 32 c) hd tl h
    simpa using this

/-! ### Decoding canonical address encodings -/

theorem decode_header_ref_addr (ref addrBytes : List Nat) (hL : 1 ≤ ref.length)
    (hL32 : ref.length ≤ 32) (ha : addrBytes.length = 20) :
    decode_evm_v1_address
        (EVM_V1_HEADER ++ [ref.length] ++ ref ++ [20] ++ addrBytes) =
      some (.ok (beBytesToNat ref, some (beBytesToNat addrBytes))) := by
  set L := ref.length with hLdef
  set buf := EVM_V1_HEADER ++ [L] ++ ref ++ [20] ++ addrBytes with hbuf
  have hlen : buf.length = 26 + L := by
    simp [hbuf, EVM_V1_HEADER, ha]
    omega
  have htake : buf.take 4 = EVM_V1_HEADER := by
    rw [hbuf]
    simp only [List.append_assoc]
    exact take_append_len _ _ 4 rfl
  have hrb4 : readByte buf 4 = L := by
    rw [hbuf]
    simp only [List.append_assoc, List.singleton_append, List.cons_append]
    exact readByte_append EVM_V1_HEADER L _ 4 rfl
  have hrefslice : (buf.drop 5).take L = ref := by
    rw [hbuf]
    have h5 : EVM_V1_HEADER ++ [L] ++ ref ++ [20] ++ addrBytes =
        (EVM_V1_HEADER ++ [L]) ++ (ref ++ ([20] ++ addrBytes)) := by
      simp [List.append_assoc]
    rw [h5, drop_append_len _ _ 5 (by simp [EVM_V1_HEADER])]
    exact take_append_len _ _ L hLdef
  have hrbCE : readByte buf (5 + L) = 20 := by
    rw [hbuf]
    have h5 : EVM_V1_HEADER ++ [L] ++ ref ++ [20] ++ addrBytes =
        (EVM_V1_HEADER ++ [L] ++ ref) ++ (20 :: addrBytes) := by
      simp [List.append_assoc]
    rw [h5]
    exact readByte_append _ _ _ _ (by simp [EVM_V1_HEADER]; omega)
  have haddr : (buf.drop (5 + L + 1)).take 20 = addrBytes := by
    rw [hbuf]
    have h5 : EVM_V1_HEADER ++ [L] ++ ref ++ [20] ++ addrBytes =
        (EVM_V1_HEADER ++ [L] ++ ref ++ [20]) ++ addrBytes := by
      simp [List.append_assoc]
    rw [h5, drop_append_len _ _ (5 + L + 1) (by simp [EVM_V1_HEADER]; omega)]
    rw [← ha]
    exact List.take_length addrBytes
  have hu : (if L = 0 then some 0 else u256_from_be_slice ref) =
      some (beBytesToNat ref) := by
    rw [if_neg (by omega)]
    unfold u256_from_be_slice
    rw [if_neg (by omega)]
  unfold decode_evm_v1_address
  rw [if_neg (by rw [hlen]; omega)]
  rw [if_neg (by rw [htake]; simp)]
  simp only [hrb4, hrbCE, hrefslice]
  rw [if_neg (by rw [hlen]; omega)]
  rw [if_neg (by rw [hlen]; omega)]
  rw [hu]
  simp only [haddr]
  simp

theorem decode_header_ref_chain_only (ref : List Nat) (hL : 1 ≤ ref.length)
    (hL32 : ref.length ≤ 32) :
    decode_evm_v1_address (EVM_V1_HEADER ++ [ref.length] ++ ref ++ [0]) =
      some (.ok (beBytesToNat ref, none)) := by
  set L := ref.length with hLdef
  set buf := EVM_V1_HEADER ++ [L] ++ ref ++ [0] with hbuf
  have hlen : buf.length = 6 + L := by
    simp [hbuf, EVM_V1_HEADER]
    omega
  have htake : buf.take 4 = EVM_V1_HEADER := by
    rw [hbuf]
    simp only [List.append_assoc]
    exact take_append_len _ _ 4 rfl
  have hrb4 : readByte buf 4 = L := by
    rw [hbuf]
    simp only [List.append_assoc, List.singleton_append, List.cons_append]
    exact readByte_append EVM_V1_HEADER L _ 4 rfl
  have hrefslice : (buf.drop 5).take L = ref := by
    rw [hbuf]
    have h5 : EVM_V1_HEADER ++ [L] ++ ref ++ [0] =
        (EVM_V1_HEADER ++ [L]) ++ (ref ++ [0]) := by
      simp [List.append_assoc]
    rw [h5, drop_append_len _ _ 5 (by simp [EVM_V1_HEADER])]
    exact take_append_len _ _ L hLdef
  have hrbCE : readByte buf (5 + L) = 0 := by
    rw [hbuf]
    have h5 : EVM_V1_HEADER ++ [L] ++ ref ++ [0] =
        (EVM_V1_HEADER ++ [L] ++ ref) ++ (0 :: []) := by
      simp [List.append_assoc]
    rw [h5]
    exact readByte_append _ _ _ _ (by simp [EVM_V1_HEADER]; omega)
  have hu : (if L = 0 then some 0 else u256_from_be_slice ref) =
      some (beBytesToNat ref) := by
    rw [if_neg (by omega)]
    unfold u256_from_be_slice
    rw [if_neg (by omega)]
  unfold decode_evm_v1_address
  rw [if_neg (by rw [hlen]; omega)]
  rw [if_neg (by rw [htake]; simp)]
  simp only [hrb4, hrbCE, hrefslice]
  rw [if_neg (by rw [hlen]; omega)]
  rw [if_neg (by rw [hlen]; omega)]
  rw [hu]
  simp

theorem decode_address_only (addrBytes : List Nat)
    (ha : addrBytes.length = 20) :
    decode_evm_v1_address (EVM_V1_ADDRESS_ONLY_HEADER ++ [20] ++ addrBytes) =
      some (.ok (0, some (beBytesToNat addrBytes))) := by
  have hsplit : EVM_V1_ADDRESS_ONLY_HEADER ++ [20] ++ addrBytes =
      EVM_V1_HEADER ++ [0] ++ [] ++ [20] ++ addrBytes := by
    simp [EVM_V1_ADDRESS_ONLY_HEADER, EVM_V1_HEADER]
  rw [hsplit]
  set buf := EVM_V1_HEADER ++ [0] ++ [] ++ [20] ++ addrBytes with hbuf
  have hlen : buf.length = 26 := by
    simp [hbuf, EVM_V1_HEADER, ha]
  have htake : buf.take 4 = EVM_V1_HEADER := by
    rw [hbuf]
    simp only [List.append_assoc]
    exact take_append_len _ _ 4 rfl
  have hrb4 : readByte buf 4 = 0 := by
    rw [hbuf]
    simp only [List.append_assoc, List.singleton_append, List.cons_append,
      List.nil_append]
    exact readByte_append EVM_V1_HEADER 0 _ 4 rfl
  have hrbCE : readByte buf (5 + 0) = 20 := by
    rw [hbuf]
    have h5 : EVM_V1_HEADER ++ [0] ++ [] ++ [20] ++ addrBytes =
        (EVM_V1_HEADER ++ [0]) ++ (20 :: addrBytes) := by
      simp [List.append_assoc]
    rw [h5]
    exact readByte_append _ _ _ _ (by simp [EVM_V1_HEADER])
  have haddr : (buf.drop (5 + 0 + 1)).take 20 = addrBytes := by
    rw [hbuf]
    have h5 : EVM_V1_HEADER ++ [0] ++ [] ++ [20] ++ addrBytes =
        (EVM_V1_HEADER ++ [0] ++ [20]) ++ addrBytes := by
      simp [List.append_assoc]
    rw [h5, drop_append_len _ _ (5 + 0 + 1) (by simp [EVM_V1_HEADER])]
    rw [← ha]
    exact List.take_length addrBytes
  unfold decode_evm_v1_address
  rw [if_neg (by rw [hlen]; omega)]
  rw [if_neg (by rw [htake]; simp)]
  simp only [hrb4, hrbCE]
  rw [if_neg (by rw [hlen]; omega)]
  rw [if_neg (by rw [hlen]; omega)]
  simp only [haddr]
  simp

theorem decode_too_short (bs : List Nat) (h : bs.length < 6) :
    decode_evm_v1_address bs = some (.error "erc-7930 data too short") := by
  unfold decode_evm_v1_address
  rw [if_pos h]

/-! ### Claim C7, C8, C10 -/

/-- **C7.** Interoperable-address codec round-trips: for every chain id
`c < 2^256` and 20-byte address `a`, decoding `encode_evm_v1_with_address c a`
yields `(c, some a)`, decoding `encode_evm_v1_chain_only c` yields
`(c, none)`, decoding `encode_evm_v1_address_only a` yields `(0, some a)`,
and decoding any buffer shorter than 6 bytes fails with the
malformed-address error. -/
theorem address_codec_round_trip (c a : Nat) (hc : c < 2 ^ 256)
    (ha : a < 2 ^ 160) :
    decode_evm_v1_address (encode_evm_v1_with_address c a) =
        some (.ok (c, some a)) ∧
    decode_evm_v1_address (encode_evm_v1_chain_only c) =
        some (.ok (c, none)) ∧
    decode_evm_v1_address (encode_evm_v1_address_only a) =
        some (.ok (0, some a)) ∧
    ∀ bs : List Nat, bs.length < 6 →
      decode_evm_v1_address bs = some (.error "erc-7930 data too short") := by
  have hLpos : 1 ≤ (to_chain_reference c).length :=
    List.length_pos.mpr (to_chain_reference_ne_nil c)
  have hL32 := to_chain_reference_length_le c
  have hval := to_chain_reference_value c hc
  have hpow : (256:ℕ) ^ 20 = 2 ^ 160 := by norm_num
  have haval : beBytesToNat (natToBeBytes 20 a) = a := by
    rw [beBytesToNat_natToBeBytes]
    exact Nat.mod_eq_of_lt (by rw [hpow]; exact ha)
  refine ⟨?_, ?_, ?_, fun bs h => decode_too_short bs h⟩
  · simp only [encode_evm_v1_with_address]
    rw [decode_header_ref_addr _ _ hLpos hL32 (natToBeBytes_length 20 a),
      hval, haval]
  · simp only [encode_evm_v1_chain_only]
    rw [decode_header_ref_chain_only _ hLpos hL32, hval]
  · simp only [encode_evm_v1_address_only]
    rw [decode_address_only _ (natToBeBytes_length 20 a), haval]

/-- Witness for C7 at chain id 5 and address 7. -/
theorem address_codec_round_trip_witness :
    (5:Nat) < 2 ^ 256 ∧ (7:Nat) < 2 ^ 160 ∧
    decode_evm_v1_address (encode_evm_v1_with_address 5 7) =
      some (.ok (5, some 7)) :=
  ⟨by norm_num, by norm_num,
    (address_codec_round_trip 5 7 (by norm_num) (by norm_num)).1⟩

/-- **C8.** `to_chain_reference` produces the minimal big-endian byte
encoding of the chain id: its big-endian value is the chain id, chain id
zero encodes as the single byte `[0]`, the result is never empty, it has no
leading zero byte for a nonzero chain id, and no nonempty byte string
encoding the same chain id is shorter. -/
theorem chain_reference_minimal_be (c : Nat) (hc : c < 2 ^ 256) :
    beBytesToNat (to_chain_reference c) = c ∧
    to_chain_reference 0 = [0] ∧
    to_chain_reference c ≠ [] ∧
    (∀ hd tl, c ≠ 0 → to_chain_reference c = hd :: tl → hd ≠ 0) ∧
    ∀ bs : List Nat, (∀ b ∈ bs, b < 256) → beBytesToNat bs = c → bs ≠ [] →
      (to_chain_reference c).length ≤ bs.length := by
  refine ⟨to_chain_reference_value c hc, to_chain_reference_zero,
    to_chain_reference_ne_nil c,
    fun hd tl h0 h => to_chain_reference_head_ne_zero c hc h0 hd tl h,
    fun bs hbytes hbsval hbs => ?_⟩
  by_cases h0 : c = 0
  · subst h0
    rw [to_chain_reference_zero]
    have := List.length_pos.mpr hbs
    simpa using this
  · obtain ⟨hd, tl, htcr⟩ : ∃ hd tl, to_chain_reference c = hd :: tl := by
      cases h : to_chain_reference c with
      | nil => exact absurd h (to_chain_reference_ne_nil c)
      | cons hd tl => exact ⟨hd, tl, rfl⟩
    have hhd : hd ≠ 0 := to_chain_reference_head_ne_zero c hc h0 hd tl htcr
    have hlow : 256 ^ tl.length ≤ c := by
      have hv := to_chain_reference_value c hc
      rw [htcr, beBytesToNat_cons] at hv
      calc 256 ^ tl.length ≤ hd * 256 ^ tl.length :=
            Nat.le_mul_of_pos_left _ (by omega)
        _ ≤ hd * 256 ^ tl.length + beBytesToNat tl := Nat.le_add_right _ _
        _ = c := hv
    have hhigh : c < 256 ^ bs.length := hbsval ▸ beBytesToNat_lt bs hbytes
    have hlt : tl.length < bs.length := by
      have := lt_of_le_of_lt hlow hhigh
      exact (Nat.pow_lt_pow_iff_right (by norm_num)).mp this
    rw [htcr]
    simpa using hlt

/-- Witness for C8 at chain id 300 (two-byte reference `[1, 44]`). -/
theorem chain_reference_minimal_be_witness :
    (300:Nat) < 2 ^ 256 ∧ beBytesToNat (to_chain_reference 300) = 300 :=
  ⟨by norm_num, (chain_reference_minimal_be 300 (by norm_num)).1⟩

/-- A structurally complete interoperable-address buffer whose declared
chain-reference length is 33 (greater than the 32 bytes of a `U256`) while
still fitting inside the buffer. -/
def longChainRefInput : List Nat :=
  EVM_V1_HEADER ++ [33] ++ List.replicate 33 255 ++ [0]

/-- **C10 (code bug).** The decoder is not total: on a buffer whose declared
chain-reference length is 33 and whose bytes are all in range, the call
`U256::from_be_slice(chain_ref)` in `decode_evm_v1_address` panics (the
slice exceeds 32 bytes and its value exceeds `U256::MAX`) instead of
returning a malformed-address error; `none` is the panic in this model. -/
theorem decode_evm_v1_address_panics_on_long_chain_reference :
    decode_evm_v1_address longChainRefInput = none := by rfl

/-! ## Status decoders (`src/abi.rs`, `src/commands/status.rs`) -/

/-- `bundle_status_string` from `src/commands/status.rs` (the argument is the
`u8` produced by `decode_bundle_status`). -/
def bundle_status_string (value : Nat) : String :=
  if value = 0 then "Unreceived"
  else if value = 1 then "Verified"
  else if value = 2 then "FullyExecuted"
  else if value = 3 then "Unbundled"
  else "Unknown"

/-- `call_status_string` from `src/commands/status.rs`. -/
def call_status_string (value : Nat) : String :=
  if value = 0 then "Unprocessed"
  else if value = 1 then "Executed"
  else if value = 2 then "Cancelled"
  else "Unknown"

/-- `decode_bundle_status` from `src/abi.rs`: ABI-decodes the return data as
a single `U256` word, converts it to `u64` with `.try_into().unwrap()` — a
panic (`none`) when the word does not fit in 64 bits — and then truncates
with `as u8` (`% 256`). -/
def decode_bundle_status (data : List Nat) : Option (Except String Nat) :=
  if data.length < 32 then some (.error "abi decode failed")
  else
    let word := beBytesToNat (data.take 32)
    if word < 2 ^ 64 then some (.ok (word % 256)) else none

/-- `decode_call_status` from `src/abi.rs`; its body is identical to
`decode_bundle_status`. -/
def decode_call_status (data : List Nat) : Option (Except String Nat) :=
  if data.length < 32 then some (.error "abi decode failed")
  else
    let word := beBytesToNat (data.take 32)
    if word < 2 ^ 64 then some (.ok (word % 256)) else none

/-- **C3 (counterexample).** The claim maps "every other on-chain uint256
value" to `Unknown`, but the decode path truncates: the 32-byte word 256
decodes to `0`, labelled `Unreceived`, and the word `2^64` makes the
`u64` conversion panic instead of producing any label at all. -/
theorem status_decoder_truncates_out_of_range_words :
    decode_bundle_status (natToBeBytes 32 256) = some (.ok 0) ∧
    bundle_status_string 0 = "Unreceived" ∧
    bundle_status_string 0 ≠ "Unknown" ∧
    decode_bundle_status (natToBeBytes 32 (2 ^ 64)) = none ∧
    decode_call_status (natToBeBytes 32 256) = some (.ok 0) ∧
    call_status_string 0 ≠ "Unknown" := by
  refine ⟨by rfl, by rfl, by decide, by rfl, by rfl, by decide⟩

/-- **C3 (amended).** For every word in the uint8 range (the range the
`bundleStatus`/`callStatus` ABI guarantees), the decode path returns the
value unchanged and the label maps are exactly
`0 ↦ Unreceived, 1 ↦ Verified, 2 ↦ FullyExecuted, 3 ↦ Unbundled`, any other
uint8 `↦ Unknown`, and `0 ↦ Unprocessed, 1 ↦ Executed, 2 ↦ Cancelled`, any
other uint8 `↦ Unknown`. Words outside the uint8 range are truncated
(mod 256) after a u64 conversion that panics from `2^64` up; they are not
all labelled `Unknown`. -/
theorem status_decoder_uint8_mapping (v : Nat) (hv : v < 256) :
    decode_bundle_status (natToBeBytes 32 v) = some (.ok v) ∧
    decode_call_status (natToBeBytes 32 v) = some (.ok v) ∧
    bundle_status_string 0 = "Unreceived" ∧
    bundle_status_string 1 = "Verified" ∧
    bundle_status_string 2 = "FullyExecuted" ∧
    bundle_status_string 3 = "Unbundled" ∧
    (4 ≤ v → bundle_status_string v = "Unknown") ∧
    call_status_string 0 = "Unprocessed" ∧
    call_status_string 1 = "Executed" ∧
    call_status_string 2 = "Cancelled" ∧
    (3 ≤ v → call_status_string v = "Unknown") := by
  have hword : beBytesToNat ((natToBeBytes 32 v).take 32) = v := by
    rw [List.take_of_length_le (by rw [natToBeBytes_length]),
      beBytesToNat_natToBeBytes]
    exact Nat.mod_eq_of_lt (lt_of_lt_of_le hv (by norm_num))
  have hv64 : v < 2 ^ 64 := lt_of_lt_of_le hv (by norm_num)
  have hdec : decode_bundle_status (natToBeBytes 32 v) = some (.ok v) := by
    unfold decode_bundle_status
    rw [if_neg (by rw [natToBeBytes_length]; omega)]
    simp only [hword]
    rw [if_pos hv64, Nat.mod_eq_of_lt hv]
  have hdec2 : decode_call_status (natToBeBytes 32 v) = some (.ok v) := by
    unfold decode_call_status
    rw [if_neg (by rw [natToBeBytes_length]; omega)]
    simp only [hword]
    rw [if_pos hv64, Nat.mod_eq_of_lt hv]
  refine ⟨hdec, hdec2, rfl, rfl, rfl, rfl, fun h4 => ?_, rfl, rfl, rfl,
    fun h3 => ?_⟩
  · unfold bundle_status_string
    rw [if_neg (by omega), if_neg (by omega), if_neg (by omega),
      if_neg (by omega)]
  · unfold call_status_string
    rw [if_neg (by omega), if_neg (by omega), if_neg (by omega)]

/-- Witness for the amended C3 at the uint8 value 7 (labelled `Unknown`). -/
theorem status_decoder_uint8_mapping_witness :
    (7:Nat) < 256 ∧ bundle_status_string 7 = "Unknown" :=
  ⟨by norm_num, (status_decoder_uint8_mapping 7 (by norm_num)).2.2.2.2.2.2.1
    (by norm_num)⟩

/-! ## Relay polling waits (`src/rpc.rs`, `src/commands/relay.rs`)

Each wait loop is embedded with the RPC collaborator abstracted as the
per-tick query results `q : Nat → Except String α` (tick 0 runs
immediately; tick `k` runs after `k` sleeps), and time modelled discretely:
the elapsed time at the deadline check of tick `k` is `k * poll`
milliseconds.  The loops are written with explicit fuel
`timeout / poll + 2`, enough for the deadline check `timeout < k * poll`
to fire first whenever `poll > 0`; the fuel branch (reachable only when
`poll = 0`, where the real loop would spin forever) returns the stage's
timeout error. -/

/-- The distinct failure outcomes of the wait stages, as distinguished by the
`anyhow` messages in the source. -/
inductive RelayWaitError
  | rpc (msg : String)
  | timeout (stage : String)
  | rootMismatch (expected got : Nat)
  deriving DecidableEq

/-- The `zks_getL2ToL1LogProof` response (`LogProof` in `src/rpc.rs`). -/
structure LogProof where
  id : Nat
  proof : List Nat
  root : Nat
  batch_number : Nat
  deriving DecidableEq

/-- Loop body of `wait_for_finalized_block` from `src/rpc.rs`: a failed
query is replaced by block number `0` (`.unwrap_or(0)`); success is
`block_number ≤ finalized`; only the deadline is fatal. -/
def waitForFinalizedBlockGo (q : Nat → Except String Nat)
    (blockNumber timeout poll : Nat) : Nat → Nat → Except RelayWaitError Unit
  | _, 0 => .error (.timeout "block was not finalized in time")
  | k, fuel + 1 =>
      let finalized := (q k).toOption.getD 0
      if blockNumber ≤ finalized then .ok ()
      else if timeout < k * poll then
        .error (.timeout "block was not finalized in time")
      else waitForFinalizedBlockGo q blockNumber timeout poll (k + 1) fuel

/-- `wait_for_finalized_block` from `src/rpc.rs`. -/
def wait_for_finalized_block (q : Nat → Except String Nat)
    (blockNumber timeout poll : Nat) : Except RelayWaitError Unit :=
  waitForFinalizedBlockGo q blockNumber timeout poll 0 (timeout / poll + 2)

/-- Loop body of `wait_for_log_proof` from `src/rpc.rs`: the `?` on
`get_log_proof` propagates a query error; `Ok(None)` (proof not yet
available) polls on; only then is the deadline checked. -/
def waitForLogProofGo (q : Nat → Except String (Option LogProof))
    (timeout poll : Nat) : Nat → Nat → Except RelayWaitError LogProof
  | _, 0 => .error (.timeout "log proof not available in time")
  | k, fuel + 1 =>
      match q k with
      | .error e => .error (.rpc e)
      | .ok (some proof) => .ok proof
      | .ok none =>
          if timeout < k * poll then
            .error (.timeout "log proof not available in time")
          else waitForLogProofGo q timeout poll (k + 1) fuel

/-- `wait_for_log_proof` from `src/rpc.rs`. -/
def wait_for_log_proof (q : Nat → Except String (Option LogProof))
    (timeout poll : Nat) : Except RelayWaitError LogProof :=
  waitForLogProofGo q timeout poll 0 (timeout / poll + 2)

/-- Loop body of `wait_for_root` from `src/commands/relay.rs`: the `?` on
`eth_call`/`decode_bytes32` propagates a query error; a non-zero root is
compared against the expected root before any deadline check, failing with
the mismatch error when different; a zero root polls on until the
deadline. -/
def waitForRootGo (q : Nat → Except String Nat) (expected timeout poll : Nat) :
    Nat → Nat → Except RelayWaitError Unit
  | _, 0 => .error (.timeout "interop root did not become available in time")
  | k, fuel + 1 =>
      match q k with
      | .error e => .error (.rpc e)
      | .ok root =>
          if root ≠ 0 then
            if root = expected then .ok ()
            else .error (.rootMismatch expected root)
          else if timeout < k * poll then
            .error (.timeout "interop root did not become available in time")
          else waitForRootGo q expected timeout poll (k + 1) fuel

/-- `wait_for_root` from `src/commands/relay.rs`. -/
def wait_for_root (q : Nat → Except String Nat)
    (expected timeout poll : Nat) : Except RelayWaitError Unit :=
  waitForRootGo q expected timeout poll 0 (timeout / poll + 2)

/-! ### Behaviour of the wait loops tick by tick -/

theorem toOption_ok {e a : Type} (x : a) :
    (Except.ok x : Except e a).toOption = some x := rfl

theorem waitForLogProofGo_step (q : Nat → Except String (Option LogProof))
    (timeout poll i fuel : Nat) (h : q i = .ok none)
    (hdl : ¬ timeout < i * poll) :
    waitForLogProofGo q timeout poll i (fuel + 1) =
      waitForLogProofGo q timeout poll (i + 1) fuel := by
  rw [waitForLogProofGo, h]
  simp only []
  rw [if_neg hdl]

theorem waitForRootGo_step (q : Nat → Except String Nat)
    (expected timeout poll i fuel : Nat) (h : q i = .ok 0)
    (hdl : ¬ timeout < i * poll) :
    waitForRootGo q expected timeout poll i (fuel + 1) =
      waitForRootGo q expected timeout poll (i + 1) fuel := by
  rw [waitForRootGo, h]
  simp only [ne_eq, eq_self_iff_true, not_true, if_false]
  rw [if_neg hdl]

theorem waitForLogProofGo_rpc (q : Nat → Except String (Option LogProof))
    (timeout poll k : Nat) (e : String) : ∀ fuel i, i ≤ k →
    (∀ j, i ≤ j → j < k → q j = .ok none) →
    (∀ j, i ≤ j → j < k → j * poll ≤ timeout) →
    q k = .error e → k - i < fuel →
    waitForLogProofGo q timeout poll i fuel = .error (.rpc e) := by
  intro fuel
  induction fuel with
  | zero => intro i _ _ _ _ hf; omega
  | succ fuel ih =>
      intro i hik hq hdl hk hf
      by_cases hik' : i = k
      · subst hik'
        rw [waitForLogProofGo, hk]
      · have hlt : i < k := by omega
        rw [waitForLogProofGo_step q timeout poll i fuel
          (hq i (Nat.le_refl i) hlt)
          (by have := hdl i (Nat.le_refl i) hlt; omega)]
        exact ih (i + 1) (by omega) (fun j h1 h2 => hq j (by omega) h2)
          (fun j h1 h2 => hdl j (by omega) h2) hk (by omega)

theorem waitForRootGo_rpc (q : Nat → Except String Nat)
    (expected timeout poll k : Nat) (e : String) : ∀ fuel i, i ≤ k →
    (∀ j, i ≤ j → j < k → q j = .ok 0) →
    (∀ j, i ≤ j → j < k → j * poll ≤ timeout) →
    q k = .error e → k - i < fuel →
    waitForRootGo q expected timeout poll i fuel = .error (.rpc e) := by
  intro fuel
  induction fuel with
  | zero => intro i _ _ _ _ hf; omega
  | succ fuel ih =>
      intro i hik hq hdl hk hf
      by_cases hik' : i = k
      · subst hik'
        rw [waitForRootGo, hk]
      · have hlt : i < k := by omega
        rw [waitForRootGo_step q expected timeout poll i fuel
          (hq i (Nat.le_refl i) hlt)
          (by have := hdl i (Nat.le_refl i) hlt; omega)]
        exact ih (i + 1) (by omega) (fun j h1 h2 => hq j (by omega) h2)
          (fun j h1 h2 => hdl j (by omega) h2) hk (by omega)

theorem waitForRootGo_first_nonzero (q : Nat → Except String Nat)
    (expected timeout poll k r : Nat) (hr : r ≠ 0) : ∀ fuel i, i ≤ k →
    (∀ j, i ≤ j → j < k → q j = .ok 0) →
    (∀ j, i ≤ j → j < k → j * poll ≤ timeout) →
    q k = .ok r → k - i < fuel →
    waitForRootGo q expected timeout poll i fuel =
      (if r = expected then .ok ()
       else .error (.rootMismatch expected r)) := by
  intro fuel
  induction fuel with
  | zero => intro i _ _ _ _ hf; omega
  | succ fuel ih =>
      intro i hik hq hdl hk hf
      by_cases hik' : i = k
      · subst hik'
        rw [waitForRootGo, hk]
        simp only [ne_eq]
        rw [if_pos hr]
      · have hlt : i < k := by omega
        rw [waitForRootGo_step q expected timeout poll i fuel
          (hq i (Nat.le_refl i) hlt)
          (by have := hdl i (Nat.le_refl i) hlt; omega)]
        exact ih (i + 1) (by omega) (fun j h1 h2 => hq j (by omega) h2)
          (fun j h1 h2 => hdl j (by omega) h2) hk (by omega)

theorem waitForRootGo_all_zero (q : Nat → Except String Nat)
    (expected timeout poll : Nat) (hq : ∀ j, q j = .ok 0) : ∀ fuel i,
    waitForRootGo q expected timeout poll i fuel =
      .error (.timeout "interop root did not become available in time") := by
  intro fuel
  induction fuel with
  | zero => intro i; rfl
  | succ fuel ih =>
      intro i
      by_cases h : timeout < i * poll
      · rw [waitForRootGo, hq i]
        simp only [ne_eq, eq_self_iff_true, not_true, if_false]
        rw [if_pos h]
      · rw [waitForRootGo_step q expected timeout poll i fuel (hq i) h]
        exact ih (i + 1)

theorem waitForFinalizedBlockGo_swallow (q : Nat → Except String Nat)
    (blockNumber timeout poll : Nat) : ∀ fuel k,
    waitForFinalizedBlockGo q blockNumber timeout poll k fuel =
      waitForFinalizedBlockGo (fun j => .ok ((q j).toOption.getD 0))
        blockNumber timeout poll k fuel := by
  intro fuel
  induction fuel with
  | zero => intro k; rfl
  | succ fuel ih =>
      intro k
      rw [waitForFinalizedBlockGo, waitForFinalizedBlockGo]
      simp only [toOption_ok, Option.getD_some]
      by_cases h : blockNumber ≤ (q k).toOption.getD 0
      · rw [if_pos h, if_pos h]
      · rw [if_neg h, if_neg h]
        by_cases h2 : timeout < k * poll
        · rw [if_pos h2, if_pos h2]
        · rw [if_neg h2, if_neg h2, ih]

theorem waitForFinalizedBlockGo_error_is_timeout
    (q : Nat → Except String Nat) (blockNumber timeout poll : Nat) :
    ∀ fuel k e, waitForFinalizedBlockGo q blockNumber timeout poll k fuel =
      .error e → e = .timeout "block was not finalized in time" := by
  intro fuel
  induction fuel with
  | zero =>
      intro k e h
      rw [waitForFinalizedBlockGo] at h
      exact (Except.error.inj h).symm
  | succ fuel ih =>
      intro k e h
      rw [waitForFinalizedBlockGo] at h
      by_cases h1 : blockNumber ≤ (q k).toOption.getD 0
      · rw [if_pos h1] at h
        exact absurd h (by simp)
      · rw [if_neg h1] at h
        by_cases h2 : timeout < k * poll
        · rw [if_pos h2] at h
          exact (Except.error.inj h).symm
        · rw [if_neg h2] at h
          exact ih (k + 1) e h

/-- The tick index of the first failing query is within the fuel bound as
soon as every earlier tick respected the deadline. -/
theorem tick_lt_fuel (k timeout poll : Nat) (hpoll : 0 < poll)
    (hdl : ∀ j, j < k → j * poll ≤ timeout) : k < timeout / poll + 2 := by
  rcases Nat.eq_zero_or_pos k with hk | hk
  · subst hk
    exact Nat.lt_of_lt_of_le Nat.zero_lt_two (Nat.le_add_left 2 _)
  · have h1 : (k - 1) * poll ≤ timeout := hdl (k - 1) (by omega)
    have h2 : k - 1 ≤ timeout / poll :=
      (Nat.le_div_iff_mul_le hpoll).mpr h1
    revert h2 hk
    generalize timeout / poll = D
    intro hk h2
    omega

/-! ### Claims C2 and C4 -/

/-- **C2 (counterexample).** In the inclusion-proof wait, a transient RPC
error on the very first poll tick is propagated fatally — the run fails
with that error even though the proof would have been available on the next
tick and the 300 s deadline is nowhere near — contradicting the claim that
every wait stage swallows transient errors and only deadline expiry is
fatal. -/
theorem wait_for_log_proof_error_not_swallowed :
    wait_for_log_proof
        (fun k => if k = 0 then .error "connection reset"
          else .ok (some ⟨1, [], 5, 9⟩)) 300000 1000 =
      .error (.rpc "connection reset") := by rfl

/-- **C2 (amended).** Only the finalization wait swallows a transient RPC
error during a poll tick (treating the tick exactly as if the finalized
block number were `0`, so that only its deadline is fatal); the
inclusion-proof wait and the root-propagation wait propagate a poll-tick
RPC error immediately and fatally, before their deadlines expire. -/
theorem relay_wait_transient_error_handling
    (qf : Nat → Except String Nat)
    (qp : Nat → Except String (Option LogProof))
    (qr : Nat → Except String Nat)
    (blockNumber timeout poll expected k : Nat) (e : String)
    (hpoll : 0 < poll) :
    (wait_for_finalized_block qf blockNumber timeout poll =
      wait_for_finalized_block (fun j => .ok ((qf j).toOption.getD 0))
        blockNumber timeout poll) ∧
    (∀ err, wait_for_finalized_block qf blockNumber timeout poll =
      .error err → err = .timeout "block was not finalized in time") ∧
    ((∀ j, j < k → qp j = .ok none) → (∀ j, j < k → j * poll ≤ timeout) →
      qp k = .error e →
      wait_for_log_proof qp timeout poll = .error (.rpc e)) ∧
    ((∀ j, j < k → qr j = .ok 0) → (∀ j, j < k → j * poll ≤ timeout) →
      qr k = .error e →
      wait_for_root qr expected timeout poll = .error (.rpc e)) := by
  refine ⟨waitForFinalizedBlockGo_swallow qf blockNumber timeout poll _ 0,
    fun err h => waitForFinalizedBlockGo_error_is_timeout qf blockNumber
      timeout poll _ 0 err h, fun hq hdl hk => ?_, fun hq hdl hk => ?_⟩
  · exact waitForLogProofGo_rpc qp timeout poll k e _ 0 (by omega)
      (fun j _ h2 => hq j h2) (fun j _ h2 => hdl j h2) hk
      (by simpa using tick_lt_fuel k timeout poll hpoll hdl)
  · exact waitForRootGo_rpc qr expected timeout poll k e _ 0 (by omega)
      (fun j _ h2 => hq j h2) (fun j _ h2 => hdl j h2) hk
      (by simpa using tick_lt_fuel k timeout poll hpoll hdl)

/-- Witness for the amended C2: the proof wait propagates a tick-0 error. -/
theorem relay_wait_transient_error_handling_witness :
    wait_for_log_proof (fun j => if j = 0 then .error "boom" else .ok none)
        5 1 = .error (.rpc "boom") :=
  (relay_wait_transient_error_handling (fun _ => .ok 0)
      (fun j => if j = 0 then .error "boom" else .ok none) (fun _ => .ok 0)
      0 5 1 0 0 "boom" (by norm_num)).2.2.1
    (fun j hj => absurd hj (by omega)) (fun j hj => absurd hj (by omega))
    (by rfl)

/-- **C4.** In the root-propagation wait, when every poll before tick `k`
returned a zero root within the deadline and tick `k` first returns a
non-zero root, the loop fails on that very poll with the root-mismatch
error when the root differs from the proof's root (regardless of how much
deadline remains), succeeds when it matches, and with a root that stays
zero forever it polls until the deadline and fails with the timeout
error. -/
theorem wait_for_root_behaviour (expected timeout poll : Nat)
    (hpoll : 0 < poll) :
    (∀ (q : Nat → Except String Nat) k r, (∀ j, j < k → q j = .ok 0) →
      (∀ j, j < k → j * poll ≤ timeout) → q k = .ok r → r ≠ 0 →
      r ≠ expected → wait_for_root q expected timeout poll =
        .error (.rootMismatch expected r)) ∧
    (∀ (q : Nat → Except String Nat) k r, (∀ j, j < k → q j = .ok 0) →
      (∀ j, j < k → j * poll ≤ timeout) → q k = .ok r → r ≠ 0 →
      r = expected → wait_for_root q expected timeout poll = .ok ()) ∧
    (∀ (q : Nat → Except String Nat), (∀ j, q j = .ok 0) →
      wait_for_root q expected timeout poll =
        .error (.timeout "interop root did not become available in time")) := by
  refine ⟨fun q k r hq hdl hk hr hne => ?_, fun q k r hq hdl hk hr heq => ?_,
    fun q hq => waitForRootGo_all_zero q expected timeout poll hq _ 0⟩
  · rw [wait_for_root, waitForRootGo_first_nonzero q expected timeout poll k r
      hr _ 0 (by omega) (fun j _ h2 => hq j h2) (fun j _ h2 => hdl j h2) hk
      (by simpa using tick_lt_fuel k timeout poll hpoll hdl)]
    rw [if_neg hne]
  · rw [wait_for_root, waitForRootGo_first_nonzero q expected timeout poll k r
      hr _ 0 (by omega) (fun j _ h2 => hq j h2) (fun j _ h2 => hdl j h2) hk
      (by simpa using tick_lt_fuel k timeout poll hpoll hdl)]
    rw [if_pos heq]

/-- Witness for C4: a first-tick root `7` against expected root `5` fails
immediately with the mismatch error. -/
theorem wait_for_root_behaviour_witness :
    wait_for_root (fun _ => .ok 7) 5 300000 1000 =
      .error (.rootMismatch 5 7) :=
  (wait_for_root_behaviour 5 300000 1000 (by norm_num)).1 (fun _ => .ok 7)
    0 7 (fun j hj => absurd hj (by omega)) (fun j hj => absurd hj (by omega))
    rfl (by norm_num) (by norm_num)

/-! ## Revert-reason decoder (`src/commands/bundle_action.rs`, `src/abi.rs`)

The decoder receives the raw failed-call error message, locates the first
`0x` hex run, cuts it at the first `"` quote, hex-decodes it and interprets
the payload.  Strings are modelled as `List Char` where the Rust works on
`&str`, and the fixed custom-error table is the selector constants
documented alongside each `error` declaration in `src/abi.rs` (they are
computed there by the `sol!` macro as the first four bytes of the keccak of
the error signature). -/

/-- A hex digit value, as accepted by `hex::decode`. -/
def hexDigitVal (c : Char) : Option Nat :=
  if '0' ≤ c ∧ c ≤ '9' then some (c.toNat - '0'.toNat)
  else if 'a' ≤ c ∧ c ≤ 'f' then some (c.toNat - 'a'.toNat + 10)
  else if 'A' ≤ c ∧ c ≤ 'F' then some (c.toNat - 'A'.toNat + 10)
  else none

/-- The lowercase hex digit for a value below 16, as produced by
`hex::encode`. -/
def hexDigitChar (n : Nat) : Char :=
  if n < 10 then Char.ofNat (48 + n) else Char.ofNat (97 + n - 10)

/-- `hex::encode`: two lowercase hex digits per byte. -/
def hexEncodeChars (bs : List Nat) : List Char :=
  (bs.map (fun b => [hexDigitChar (b / 16), hexDigitChar (b % 16)])).flatten

/-- `hex::decode` on a digit string: fails on odd length or a non-hex
character. -/
def decodeHexChars : List Char → Except String (List Nat)
  | [] => .ok []
  | [_] => .error "odd length"
  | c1 :: c2 :: rest =>
      match hexDigitVal c1, hexDigitVal c2, decodeHexChars rest with
      | some h, some l, .ok bs => .ok ((16 * h + l) :: bs)
      | _, _, _ => .error "invalid hex character"

/-- `str::trim`. -/
def trimChars (cs : List Char) : List Char :=
  ((cs.dropWhile (·.isWhitespace)).reverse.dropWhile (·.isWhitespace)).reverse

/-- `str::strip_prefix("0x").unwrap_or(..)`. -/
def stripPrefix0x : List Char → List Char
  | '0' :: 'x' :: rest => rest
  | cs => cs

/-- `decode_hex` from `src/commands/bundle_action.rs`. -/
def decode_hex (value : List Char) : Except String (List Nat) :=
  decodeHexChars (stripPrefix0x (trimChars value))

/-- `message.find("0x")`: index of the first occurrence of the substring. -/
def findFirst0x : List Char → Option Nat
  | [] => none
  | '0' :: 'x' :: _ => some 0
  | _ :: rest => (findFirst0x rest).map (· + 1)

/-- `hex_data.find('"')`. -/
def findQuote : List Char → Option Nat
  | [] => none
  | c :: rest => if c = '"' then some 0 else (findQuote rest).map (· + 1)

/-- The `Error(string)` selector `0x08c379a0`. -/
def errorStringSelector : List Nat := [0x08, 0xc3, 0x79, 0xa0]

/-- The `Panic(uint256)` selector `0x4e487b71`. -/
def panicSelector : List Nat := [0x4e, 0x48, 0x7b, 0x71]

/-- `error_selector_map` from `src/abi.rs`: the fixed custom-error table,
keyed by the 4-byte selectors documented next to each `error` declaration
(the `sol!` macro computes them from the signature keccak). -/
def error_selector_table : List (List Nat × String) :=
  [([0x90, 0x31, 0xf7, 0x51], "AttributeAlreadySet"),
   ([0xbc, 0xb4, 0x1e, 0xc7], "AttributeViolatesRestriction"),
   ([0x5b, 0xba, 0x51, 0x11], "BundleAlreadyProcessed"),
   ([0xa4, 0x3d, 0x29, 0x53], "BundleVerifiedAlready"),
   ([0xd5, 0xc7, 0xa3, 0x76], "CallAlreadyExecuted"),
   ([0xc0, 0x87, 0xb7, 0x27], "CallNotExecutable"),
   ([0xf7, 0x29, 0xf2, 0x6d], "CanNotUnbundle"),
   ([0xe8, 0x45, 0xbe, 0x4c], "ExecutingNotAllowed"),
   ([0x62, 0xd2, 0x14, 0xaa], "IndirectCallValueMismatch"),
   ([0xfe, 0x8b, 0x1b, 0x16], "InteroperableAddressChainReferenceNotEmpty"),
   ([0x88, 0x4f, 0x49, 0xba], "InteroperableAddressNotEmpty"),
   ([0xea, 0xe1, 0x92, 0xef], "InvalidInteropBundleVersion"),
   ([0xd5, 0xf1, 0x39, 0x73], "InvalidInteropCallVersion"),
   ([0x32, 0xc2, 0xe1, 0x56], "MessageNotIncluded"),
   ([0x89, 0xfd, 0x2c, 0x76], "UnauthorizedMessageSender"),
   ([0x03, 0x45, 0xc2, 0x81], "UnbundlingNotAllowed"),
   ([0x80, 0x15, 0x34, 0xe9], "WrongCallStatusLength"),
   ([0x45, 0x34, 0xe9, 0x72], "WrongDestinationChainId"),
   ([0x53, 0x4a, 0xb1, 0xb2], "WrongSourceChainId")]

/-- The selector-map lookup producing `revert: <Name>` when the selector is
registered. -/
def lookupSelector (selector : List Nat) : Option String :=
  (error_selector_table.find? (fun p => p.1 == selector)).map
    (fun p => "revert: " ++ p.2)

/-- `decode_error_string` from `src/commands/bundle_action.rs`: the alloy
ABI decode of a single `string` (offset word, length word, then the bytes;
alloy additionally validates UTF-8, modelled here for the ASCII range). -/
def decode_error_string (data : List Nat) : Except String String :=
  if data.length < 32 then .error "abi decode failed"
  else
    let offset := beBytesToNat (data.take 32)
    if data.length < offset + 32 then .error "abi decode failed"
    else
      let len := beBytesToNat ((data.drop offset).take 32)
      if data.length < offset + 32 + len then .error "abi decode failed"
      else
        let strBytes := (data.drop (offset + 32)).take len
        if strBytes.all (· < 128) then
          .ok (String.mk (strBytes.map Char.ofNat))
        else .error "invalid utf-8"

/-- The payload interpretation inside `decode_revert_reason`
(`src/commands/bundle_action.rs` after `decode_hex`): payloads shorter than
4 bytes give `None`; the `Error(string)` selector tries the ABI string
decode, falling back to the selector table; the `Panic(uint256)` selector
calls `U256::from_be_slice` on the whole rest of the payload — a panic
(outer `none`) when the rest exceeds 32 bytes; everything else is looked up
in the fixed table. -/
def decode_revert_payload (data : List Nat) : Option (Option String) :=
  if data.length < 4 then some none
  else
    let selector := data.take 4
    if selector = errorStringSelector then
      match decode_error_string (data.drop 4) with
      | .ok reason => some (some reason)
      | .error _ => some (lookupSelector selector)
    else if selector = panicSelector then
      if 32 < (data.drop 4).length then none
      else some (some ("panic(" ++ Nat.repr (beBytesToNat (data.drop 4))
        ++ ")"))
    else some (lookupSelector selector)

/-- `decode_revert_reason` from `src/commands/bundle_action.rs`: locate the
first `0x`, cut at the first `"`, hex-decode, interpret the payload.  The
outer `none` is a panic; `some none` is Rust's `None`. -/
def decode_revert_reason (message : List Char) : Option (Option String) :=
  match findFirst0x message with
  | none => some none
  | some i =>
      let hexAll := message.drop i
      let hexData := hexAll.take ((findQuote hexAll).getD hexAll.length)
      match decode_hex hexData with
      | .error _ => some none
      | .ok data => decode_revert_payload data

/-! ### Hex round trip and string-level reduction -/

theorem hexDigitVal_hexDigitChar :
    ∀ d, d < 16 → hexDigitVal (hexDigitChar d) = some d := by decide

theorem hexDigitChar_plain :
    ∀ d, d < 16 → (hexDigitChar d).isWhitespace = false ∧
      hexDigitChar d ≠ '"' := by decide

theorem hexEncodeChars_cons (b : Nat) (bs : List Nat) :
    hexEncodeChars (b :: bs) =
      hexDigitChar (b / 16) :: hexDigitChar (b % 16) :: hexEncodeChars bs :=
  rfl

theorem decodeHexChars_hexEncodeChars (bs : List Nat)
    (h : ∀ b ∈ bs, b < 256) : decodeHexChars (hexEncodeChars bs) = .ok bs := by
  induction bs with
  | nil => rfl
  | cons b rest ih =>
      rw [hexEncodeChars_cons, decodeHexChars,
        hexDigitVal_hexDigitChar (b / 16)
          (by have := h b (List.mem_cons_self _ _); omega),
        hexDigitVal_hexDigitChar (b % 16) (by omega),
        ih (fun x hx => h x (List.mem_cons_of_mem _ hx))]
      simp only []
      have hb : 16 * (b / 16) + b % 16 = b := by omega
      rw [hb]

theorem hexEncodeChars_mem (bs : List Nat) (h : ∀ b ∈ bs, b < 256) :
    ∀ c ∈ hexEncodeChars bs, c.isWhitespace = false ∧ c ≠ '"' := by
  induction bs with
  | nil => intro c hc; simp [hexEncodeChars] at hc
  | cons b rest ih =>
      intro c hc
      rw [hexEncodeChars_cons] at hc
      have hb := h b (List.mem_cons_self _ _)
      simp only [List.mem_cons] at hc
      rcases hc with rfl | rfl | hc
      · exact hexDigitChar_plain (b / 16) (by omega)
      · exact hexDigitChar_plain (b % 16) (by omega)
      · exact ih (fun x hx => h x (List.mem_cons_of_mem _ hx)) c hc

theorem dropWhile_eq_self_of_none (p : Char → Bool) (l : List Char)
    (h : ∀ c ∈ l, p c = false) : l.dropWhile p = l := by
  cases l with
  | nil => rfl
  | cons c rest =>
      rw [List.dropWhile_cons, h c (List.mem_cons_self _ _)]
      simp

theorem trimChars_eq_self (l : List Char)
    (h : ∀ c ∈ l, c.isWhitespace = false) : trimChars l = l := by
  unfold trimChars
  rw [dropWhile_eq_self_of_none _ _ h,
    dropWhile_eq_self_of_none _ _ (fun c hc => h c (List.mem_reverse.mp hc)),
    List.reverse_reverse]

theorem findQuote_none (l : List Char) (h : ∀ c ∈ l, c ≠ '"') :
    findQuote l = none := by
  induction l with
  | nil => rfl
  | cons c rest ih =>
      rw [findQuote, if_neg (h c (List.mem_cons_self _ _)),
        ih (fun x hx => h x (List.mem_cons_of_mem _ hx))]
      rfl

/-- On a message that is exactly a `0x` hex run, the string-level decoder
reduces to the payload-level decoder. -/
theorem decode_revert_reason_hex (data : List Nat) (h : ∀ b ∈ data, b < 256) :
    decode_revert_reason ('0' :: 'x' :: hexEncodeChars data) =
      decode_revert_payload data := by
  have hmem := hexEncodeChars_mem data h
  have h0 : findFirst0x ('0' :: 'x' :: hexEncodeChars data) = some 0 := rfl
  have hq : findQuote ('0' :: 'x' :: hexEncodeChars data) = none := by
    apply findQuote_none
    intro c hc
    simp only [List.mem_cons] at hc
    rcases hc with rfl | rfl | hc
    · decide
    · decide
    · exact (hmem c hc).2
  have hws : ∀ c ∈ '0' :: 'x' :: hexEncodeChars data,
      c.isWhitespace = false := by
    intro c hc
    simp only [List.mem_cons] at hc
    rcases hc with rfl | rfl | hc
    · rfl
    · rfl
    · exact (hmem c hc).1
  unfold decode_revert_reason
  rw [h0]
  simp only [List.drop_zero]
  rw [hq]
  simp only [Option.getD_none, List.take_length]
  unfold decode_hex
  rw [trimChars_eq_self _ hws]
  have hstrip : stripPrefix0x ('0' :: 'x' :: hexEncodeChars data) =
      hexEncodeChars data := rfl
  rw [hstrip, decodeHexChars_hexEncodeChars data h]

/-! ### ABI string payloads -/

/-- The zero padding that the ABI appends to `n` content bytes. -/
def pad32Len (n : Nat) : Nat := (32 - n % 32) % 32

/-- The canonical ABI encoding of a `string` whose bytes are `bs`: offset
word 32, length word, the bytes, zero padding to a word boundary. -/
def abiEncodeStringBytes (bs : List Nat) : List Nat :=
  natToBeBytes 32 32 ++ natToBeBytes 32 bs.length ++ bs ++
    List.replicate (pad32Len bs.length) 0

theorem word_value (n : Nat) (h : n < 2 ^ 256) :
    beBytesToNat (natToBeBytes 32 n) = n := by
  rw [beBytesToNat_natToBeBytes]
  exact Nat.mod_eq_of_lt (by norm_num at h ⊢; omega)

theorem decode_error_string_abi (bs : List Nat) (hlen : bs.length < 2 ^ 256)
    (hascii : bs.all (· < 128) = true) :
    decode_error_string (abiEncodeStringBytes bs) =
      .ok (String.mk (bs.map Char.ofNat)) := by
  have hdatalen : (abiEncodeStringBytes bs).length =
      64 + bs.length + pad32Len bs.length := by
    simp [abiEncodeStringBytes]
    omega
  have htake : (abiEncodeStringBytes bs).take 32 = natToBeBytes 32 32 := by
    unfold abiEncodeStringBytes
    simp only [List.append_assoc]
    exact take_append_len _ _ 32 (natToBeBytes_length 32 32).symm
  have hdrop32 : (abiEncodeStringBytes bs).drop 32 =
      natToBeBytes 32 bs.length ++ (bs ++
        List.replicate (pad32Len bs.length) 0) := by
    unfold abiEncodeStringBytes
    simp only [List.append_assoc]
    exact drop_append_len _ _ 32 (natToBeBytes_length 32 32).symm
  have hlenword : ((abiEncodeStringBytes bs).drop 32).take 32 =
      natToBeBytes 32 bs.length := by
    rw [hdrop32]
    exact take_append_len _ _ 32 (natToBeBytes_length 32 bs.length).symm
  have hdrop64 : (abiEncodeStringBytes bs).drop 64 =
      bs ++ List.replicate (pad32Len bs.length) 0 := by
    unfold abiEncodeStringBytes
    have hsplit : natToBeBytes 32 32 ++ natToBeBytes 32 bs.length ++ bs ++
        List.replicate (pad32Len bs.length) 0 =
        (natToBeBytes 32 32 ++ natToBeBytes 32 bs.length) ++
          (bs ++ List.replicate (pad32Len bs.length) 0) := by
      simp [List.append_assoc]
    rw [hsplit]
    exact drop_append_len _ _ 64 (by simp)
  have hstr : ((abiEncodeStringBytes bs).drop 64).take bs.length = bs := by
    rw [hdrop64]
    exact take_append_len _ _ bs.length rfl
  unfold decode_error_string
  rw [if_neg (by omega)]
  rw [htake, word_value 32 (by norm_num)]
  rw [if_neg (by omega)]
  rw [hlenword, word_value bs.length hlen]
  rw [if_neg (by omega)]
  rw [show (32:Nat) + 32 = 64 from rfl, hstr]
  rw [if_pos hascii]

/-! ### Claims C5 and C6 -/

/-- An error message carrying the `Panic(uint256)` selector followed by 33
bytes of payload (66 hex digits). -/
def c5FailingMessage : List Char :=
  "call failed: 0x4e487b71".data ++ List.replicate 66 'f'

/-- **C5 (code bug).** The revert-reason decoder is not total: on an error
message whose hex run is the `Panic` selector `0x4e487b71` followed by 33
bytes, `U256::from_be_slice(&data[4..])` panics (the slice exceeds 32 bytes
and its value exceeds `U256::MAX`) instead of returning `Some`/`None`;
`none` is the panic in this model. -/
theorem decode_revert_reason_panics_on_long_panic_payload :
    decode_revert_reason c5FailingMessage = none := by rfl

/-- **C6.** The revert-reason decoder maps the listed payload shapes as
specified: the `Error(string)` selector followed by a canonically
ABI-encoded ASCII string decodes to that string (in particular `"Foo"` to
`"Foo"`); the `Panic(uint256)` selector followed by a 32-byte big-endian
integer `n` decodes to `panic(n)` (in particular `1` to `"panic(1)"`); a
payload shorter than 4 bytes decodes to `None`; and any other selector
decodes to exactly the fixed-table lookup — `revert: <Name>` when
registered, `None` when not.  The first conjunct reduces the string-level
decoder on a pure `0x` hex run to the payload decoder. -/
theorem revert_decoder_payload_shapes (bs data : List Nat) (n : Nat)
    (hlen : bs.length < 2 ^ 256)
    (hascii : bs.all (· < 128) = true) (hn : n < 2 ^ 256) :
    (decode_revert_reason ('0' :: 'x' :: hexEncodeChars data) =
      decode_revert_payload data ∨ ¬ ∀ b ∈ data, b < 256) ∧
    decode_revert_payload (errorStringSelector ++ abiEncodeStringBytes bs) =
      some (some (String.mk (bs.map Char.ofNat))) ∧
    decode_revert_payload (panicSelector ++ natToBeBytes 32 n) =
      some (some ("panic(" ++ Nat.repr n ++ ")")) ∧
    (data.length < 4 → decode_revert_payload data = some none) ∧
    (4 ≤ data.length → data.take 4 ≠ errorStringSelector →
      data.take 4 ≠ panicSelector →
      decode_revert_payload data =
        some (lookupSelector (data.take 4))) := by
  refine ⟨?_, ?_, ?_, fun hshort => ?_, fun h4 h1 h2 => ?_⟩
  · by_cases hd : ∀ b ∈ data, b < 256
    · exact Or.inl (decode_revert_reason_hex data hd)
    · exact Or.inr hd
  · have htake : (errorStringSelector ++ abiEncodeStringBytes bs).take 4 =
        errorStringSelector := take_append_len _ _ 4 rfl
    have hdrop : (errorStringSelector ++ abiEncodeStringBytes bs).drop 4 =
        abiEncodeStringBytes bs := drop_append_len _ _ 4 rfl
    have hlen4 : 4 ≤ (errorStringSelector ++ abiEncodeStringBytes bs).length := by
      simp [errorStringSelector]
    unfold decode_revert_payload
    rw [if_neg (by omega), htake, if_pos rfl, hdrop,
      decode_error_string_abi bs hlen hascii]
  · have htake : (panicSelector ++ natToBeBytes 32 n).take 4 =
        panicSelector := take_append_len _ _ 4 rfl
    have hdrop : (panicSelector ++ natToBeBytes 32 n).drop 4 =
        natToBeBytes 32 n := drop_append_len _ _ 4 rfl
    have hlen4 : (panicSelector ++ natToBeBytes 32 n).length = 36 := by
      simp [panicSelector]
    unfold decode_revert_payload
    rw [if_neg (by omega), htake,
      if_neg (by unfold panicSelector errorStringSelector; decide),
      if_pos rfl, hdrop]
    rw [if_neg (by rw [natToBeBytes_length]; omega), word_value n hn]
  · unfold decode_revert_payload
    rw [if_pos hshort]
  · unfold decode_revert_payload
    rw [if_neg (by omega), if_neg h1, if_neg h2]

/-- Witness for C6: `"Foo"`, panic code 1, and the registered
`BundleAlreadyProcessed` selector `0x5bba5111`. -/
theorem revert_decoder_payload_shapes_witness :
    decode_revert_payload (errorStringSelector ++
        abiEncodeStringBytes [70, 111, 111]) = some (some "Foo") ∧
    decode_revert_payload (panicSelector ++ natToBeBytes 32 1) =
      some (some "panic(1)") ∧
    decode_revert_payload [0x5b, 0xba, 0x51, 0x11] =
      some (some "revert: BundleAlreadyProcessed") ∧
    decode_revert_payload [0xde, 0xad, 0xbe, 0xef] = some none := by
  have h := revert_decoder_payload_shapes [70, 111, 111]
    [0x5b, 0xba, 0x51, 0x11] 1 (by norm_num) (by decide) (by norm_num)
  have h2 := revert_decoder_payload_shapes [70, 111, 111]
    [0xde, 0xad, 0xbe, 0xef] 1 (by norm_num) (by decide) (by norm_num)
  refine ⟨?_, h.2.2.1, ?_, ?_⟩
  · have := h.2.1
    simpa using this
  · have := h.2.2.2.2 (by norm_num) (by decide) (by decide)
    rw [this]
    rfl
  · have := h2.2.2.2.2 (by norm_num) (by decide) (by decide)
    rw [this]
    rfl

/-! ## Proof-message override before verify/execute calldata
(`src/commands/bundle_action.rs`, `src/commands/relay.rs`, `src/abi.rs`)

The inclusion proof carries its message fields as strings (`ProofMessage`
in `src/types.rs`); the calldata builders re-parse them in `proof_to_sol`.
Strings are modelled as `List Char` as in the revert decoder. -/

/-- `BUNDLE_IDENTIFIER` from `src/types.rs`. -/
def BUNDLE_IDENTIFIER : Nat := 0x01

/-- `ProofMessage` from `src/types.rs`. -/
structure ProofMessage where
  tx_number_in_batch : Nat
  sender : List Char
  data : List Char
  deriving DecidableEq

/-- `MessageInclusionProof` from `src/types.rs`. -/
structure MessageInclusionProof where
  chain_id : List Char
  l1_batch_number : Nat
  l2_message_index : Nat
  root : List Char
  message : ProofMessage
  proof : List (List Char)
  deriving DecidableEq

/-- `L2Message` from the `sol!` block in `src/abi.rs`. -/
structure L2MessageSol where
  txNumberInBatch : Nat
  sender : Nat
  data : List Nat
  deriving DecidableEq

/-- `MessageInclusionProofSol` from the `sol!` block in `src/abi.rs`
(proof nodes as 32-byte values). -/
structure MessageInclusionProofSol where
  chainId : Nat
  l1BatchNumber : Nat
  l2MessageIndex : Nat
  message : L2MessageSol
  proof : List Nat
  deriving DecidableEq

/-- `format!("{center:#x}")`: `0x` followed by the 40 lowercase hex digits
of the 20-byte address. -/
def formatAddressHex (center : Nat) : List Char :=
  '0' :: 'x' :: hexEncodeChars (natToBeBytes 20 center)

/-- The sender/data override in `run_bundle_action`
(`src/commands/bundle_action.rs` lines 79-91): the message's sender is
unconditionally replaced by the formatted interop-center address and its
data by `0x` + `hex::encode([BUNDLE_IDENTIFIER])` + `hex::encode(bundle)`;
every other proof field is kept. -/
def override_proof_message (center : Nat) (encodedBundle : List Nat)
    (proof : MessageInclusionProof) : MessageInclusionProof :=
  { proof with message :=
    { proof.message with
        sender := formatAddressHex center
        data :=
          '0' :: 'x' :: hexEncodeChars (BUNDLE_IDENTIFIER :: encodedBundle) } }

/-- The `ProofMessage` literal built in `src/commands/relay.rs` (lines
116-124) for the relay pipeline: the same sender/data strings, with the
receipt's transaction index. -/
def relay_proof_message (center : Nat) (encodedBundle : List Nat)
    (txIndex : Nat) : ProofMessage :=
  { tx_number_in_batch := txIndex
    sender := formatAddressHex center
    data := '0' :: 'x' :: hexEncodeChars (BUNDLE_IDENTIFIER :: encodedBundle) }

/-- `str::trim_start_matches("0x")`: strips every leading `0x`. -/
def trimStartMatches0x : List Char → List Char
  | '0' :: 'x' :: rest => trimStartMatches0x rest
  | cs => cs

/-- `Address::from_str`: optional `0x`, then exactly 40 hex digits. -/
def parseAddressChars (cs : List Char) : Except String Nat :=
  match decodeHexChars (stripPrefix0x cs) with
  | .ok bs => if bs.length = 20 then .ok (beBytesToNat bs)
      else .error "invalid sender"
  | .error _ => .error "invalid sender"

/-- `B256::from_str`: optional `0x`, then exactly 64 hex digits. -/
def parseB256Chars (cs : List Char) : Except String Nat :=
  match decodeHexChars (stripPrefix0x cs) with
  | .ok bs => if bs.length = 32 then .ok (beBytesToNat bs)
      else .error "invalid proof node"
  | .error _ => .error "invalid proof node"

/-- `U256::from_str` on a decimal string, with the overflow check. -/
def parseDecChars (cs : List Char) : Except String Nat :=
  if cs.isEmpty then .error "invalid chainId"
  else if cs.all (fun c => decide ('0' ≤ c ∧ c ≤ '9')) then
    let v := cs.foldl (fun acc c => acc * 10 + (c.toNat - 48)) 0
    if v < 2 ^ 256 then .ok v else .error "invalid chainId"
  else .error "invalid chainId"

/-- `proof_to_sol` from `src/abi.rs`: parses the chain id, the message
sender, the message data (hex with every leading `0x` stripped) and the
proof nodes, truncating the tx number to `u16`. -/
def proof_to_sol (p : MessageInclusionProof) :
    Except String MessageInclusionProofSol :=
  match parseDecChars p.chain_id with
  | .error e => .error e
  | .ok chainId =>
      match parseAddressChars p.message.sender with
      | .error e => .error e
      | .ok sender =>
          match decodeHexChars (trimStartMatches0x p.message.data) with
          | .error e => .error e
          | .ok data =>
              match p.proof.mapM parseB256Chars with
              | .error e => .error e
              | .ok nodes =>
                  .ok { chainId := chainId
                        l1BatchNumber := p.l1_batch_number
                        l2MessageIndex := p.l2_message_index
                        message :=
                          { txNumberInBatch :=
                              p.message.tx_number_in_batch % 2 ^ 16
                            sender := sender
                            data := data }
                        proof := nodes }

theorem stripPrefix0x_cons (l : List Char) :
    stripPrefix0x ('0' :: 'x' :: l) = l := rfl

theorem trimStartMatches0x_cons (l : List Char) :
    trimStartMatches0x ('0' :: 'x' :: l) = trimStartMatches0x l := rfl

theorem trimStartMatches0x_zero_one (l : List Char) :
    trimStartMatches0x ('0' :: '1' :: l) = '0' :: '1' :: l := rfl

theorem parseAddressChars_formatAddressHex (center : Nat)
    (hc : center < 2 ^ 160) :
    parseAddressChars (formatAddressHex center) = .ok center := by
  unfold parseAddressChars formatAddressHex
  rw [stripPrefix0x_cons,
    decodeHexChars_hexEncodeChars _ (natToBeBytes_mem_lt 20 center)]
  simp only []
  rw [if_pos (natToBeBytes_length 20 center)]
  rw [beBytesToNat_natToBeBytes]
  have h2 : center % 256 ^ 20 = center :=
    Nat.mod_eq_of_lt (by norm_num at hc ⊢; omega)
  rw [h2]

theorem hexEncodeChars_bundle_no_0x (encodedBundle : List Nat) :
    trimStartMatches0x
        ('0' :: 'x' :: hexEncodeChars (BUNDLE_IDENTIFIER :: encodedBundle)) =
      hexEncodeChars (BUNDLE_IDENTIFIER :: encodedBundle) := by
  have h01 : hexEncodeChars (BUNDLE_IDENTIFIER :: encodedBundle) =
      '0' :: '1' :: hexEncodeChars encodedBundle := by
    rw [hexEncodeChars_cons]
    rfl
  rw [trimStartMatches0x_cons, h01, trimStartMatches0x_zero_one]

/-- **C9.** Before building verify/execute calldata, the proof's message
fields are always overridden, whatever the raw proof carried: the message
becomes exactly the one the relay pipeline builds (sender = the formatted
interop-center address, data = `0x` + bundle-identifier byte + canonical
bundle bytes, tx number kept), and whenever `proof_to_sol` then succeeds,
the message embedded in the calldata has the interop-center address as
sender and `BUNDLE_IDENTIFIER :: bundleBytes` as data — never the original
sender or data. -/
theorem proof_override (center : Nat) (hc : center < 2 ^ 160)
    (encodedBundle : List Nat) (hb : ∀ b ∈ encodedBundle, b < 256)
    (proof : MessageInclusionProof) :
    (override_proof_message center encodedBundle proof).message =
      relay_proof_message center encodedBundle
        proof.message.tx_number_in_batch ∧
    ∀ sol, proof_to_sol (override_proof_message center encodedBundle proof) =
        .ok sol →
      sol.message.sender = center ∧
      sol.message.data = BUNDLE_IDENTIFIER :: encodedBundle ∧
      sol.message.txNumberInBatch =
        proof.message.tx_number_in_batch % 2 ^ 16 := by
  refine ⟨rfl, fun sol h => ?_⟩
  have hsender : (override_proof_message center encodedBundle
      proof).message.sender = formatAddressHex center := rfl
  have hdata : (override_proof_message center encodedBundle
      proof).message.data =
      '0' :: 'x' :: hexEncodeChars (BUNDLE_IDENTIFIER :: encodedBundle) := rfl
  unfold proof_to_sol at h
  rw [hsender, hdata, parseAddressChars_formatAddressHex center hc,
    hexEncodeChars_bundle_no_0x,
    decodeHexChars_hexEncodeChars (BUNDLE_IDENTIFIER :: encodedBundle)
      (by intro b hb2
          rcases List.mem_cons.mp hb2 with rfl | hb2
          · norm_num [BUNDLE_IDENTIFIER]
          · exact hb b hb2)] at h
  cases hchain : parseDecChars
      (override_proof_message center encodedBundle proof).chain_id with
  | error e => rw [hchain] at h; cases h
  | ok c =>
      rw [hchain] at h
      cases hnodes : (override_proof_message center encodedBundle
          proof).proof.mapM parseB256Chars with
      | error e => rw [hnodes] at h; cases h
      | ok nodes =>
          rw [hnodes] at h
          have heq := Except.ok.inj h
          rw [← heq]
          exact ⟨rfl, rfl, rfl⟩

/-- A raw proof whose original sender and data are junk. -/
def exampleRawProof : MessageInclusionProof :=
  { chain_id := ['1']
    l1_batch_number := 2
    l2_message_index := 3
    root := []
    message := { tx_number_in_batch := 4
                 sender := "junk-sender".data
                 data := "junk-data".data }
    proof := [] }

/-- The Sol proof produced from `exampleRawProof` after the override with
center 3 and bundle bytes `[7]`. -/
def exampleSolProof : MessageInclusionProofSol :=
  { chainId := 1
    l1BatchNumber := 2
    l2MessageIndex := 3
    message := { txNumberInBatch := 4, sender := 3, data := [1, 7] }
    proof := [] }

/-- Witness for C9 at center 3, bundle `[7]`, and a junk raw proof. -/
theorem proof_override_witness :
    proof_to_sol (override_proof_message 3 [7] exampleRawProof) =
      .ok exampleSolProof ∧
    exampleSolProof.message.sender = 3 ∧
    exampleSolProof.message.data = [1, 7] := by
  have h := (proof_override 3 (by norm_num) [7] (by decide)
    exampleRawProof).2 exampleSolProof (by rfl)
  exact ⟨by rfl, h.1, h.2.1⟩

/-! ## InteropBundle ABI codec (`src/types.rs`, `src/abi.rs`)

`encode_interop_bundle` is alloy's `SolValue::abi_encode` on the `sol!`
struct `InteropBundle` (`src/types.rs` lines 180-203); decoding is
`InteropBundle::abi_decode(&bytes, true)` (`src/commands/status.rs` line
23).  Both sides use the standard Solidity ABI head/tail encoding of

`(bytes1, uint256, uint256, bytes32, (bytes1, bool, address, address,
uint256, bytes)[], (bytes, bytes))`

wrapped as a single dynamic value (a leading offset word), which is what
alloy produces and consumes for a top-level struct.  The decoder mirrors
alloy's sequential offset-following decoder, including the `validate=true`
word checks (zero padding of `bytes1`, a `0/1` bool word, a 20-byte
address) and its buffer-overrun checks. -/

/-- `InteropCall` from the `sol!` block in `src/types.rs` (`from` is a Lean
keyword, hence the guillemets). -/
structure InteropCall where
  version : Nat
  shadowAccount : Bool
  «to» : Nat
  «from» : Nat
  value : Nat
  data : List Nat
  deriving DecidableEq

/-- `BundleAttributes` from the `sol!` block in `src/types.rs`. -/
structure BundleAttributes where
  executionAddress : List Nat
  unbundlerAddress : List Nat
  deriving DecidableEq

/-- `InteropBundle` from the `sol!` block in `src/types.rs`. -/
structure InteropBundle where
  version : Nat
  sourceChainId : Nat
  destinationChainId : Nat
  interopBundleSalt : Nat
  calls : List InteropCall
  bundleAttributes : BundleAttributes
  deriving DecidableEq

/-- The value ranges of the Rust/Solidity field types: `bytes1` and bytes
below 256, addresses below `2^160`, words below `2^256`, and `usize`
lengths below `2^64`. -/
def InteropCall.Valid (c : InteropCall) : Prop :=
  c.version < 256 ∧ c.«to» < 2 ^ 160 ∧ c.«from» < 2 ^ 160 ∧
    c.value < 2 ^ 256 ∧ (∀ b ∈ c.data, b < 256) ∧ c.data.length < 2 ^ 64

instance (c : InteropCall) : Decidable c.Valid := by
  unfold InteropCall.Valid
  infer_instance

/-- Value ranges for a bundle: field ranges, valid calls, byte-valued
attribute strings, and `usize` lengths. -/
def InteropBundle.Valid (b : InteropBundle) : Prop :=
  b.version < 256 ∧ b.sourceChainId < 2 ^ 256 ∧
    b.destinationChainId < 2 ^ 256 ∧ b.interopBundleSalt < 2 ^ 256 ∧
    (∀ c ∈ b.calls, c.Valid) ∧ b.calls.length < 2 ^ 64 ∧
    (∀ x ∈ b.bundleAttributes.executionAddress, x < 256) ∧
    b.bundleAttributes.executionAddress.length < 2 ^ 64 ∧
    (∀ x ∈ b.bundleAttributes.unbundlerAddress, x < 256) ∧
    b.bundleAttributes.unbundlerAddress.length < 2 ^ 64

instance (b : InteropBundle) : Decidable b.Valid := by
  unfold InteropBundle.Valid
  infer_instance

/-! ### Encoder -/

/-- A 32-byte big-endian word. -/
def word (n : Nat) : List Nat := natToBeBytes 32 n

/-- The word encoding a `bytes1`: the byte in the most significant
position, zero padding after it. -/
def wordB1 (v : Nat) : List Nat := word (v * 2 ^ 248)

/-- The word encoding a `bool`. -/
def wordBool (b : Bool) : List Nat := word (if b then 1 else 0)

/-- Content bytes padded with zeros to a word boundary. -/
def padRight (bs : List Nat) : List Nat :=
  bs ++ List.replicate (pad32Len bs.length) 0

/-- ABI encoding of dynamic `bytes`: length word then padded content. -/
def encBytes (bs : List Nat) : List Nat := word bs.length ++ padRight bs

/-- Byte length of `encBytes`. -/
def encBytesLen (n : Nat) : Nat := 32 + n + pad32Len n

/-- ABI encoding of one `InteropCall` tuple: five static head words, the
offset word `192 = 6 * 32` for the dynamic `data` field, then the `bytes`
tail. -/
def encCall (c : InteropCall) : List Nat :=
  wordB1 c.version ++ wordBool c.shadowAccount ++ word c.«to» ++
    word c.«from» ++ word c.value ++ word 192 ++ encBytes c.data

/-- Byte length of `encCall`. -/
def encCallLen (c : InteropCall) : Nat := 192 + encBytesLen c.data.length

/-- Offsets of the array elements relative to the start of the array data
area (after the length word): each element starts after the `32 * n` offset
words and the tails of the previous elements. -/
def callOffsets (base : Nat) : List InteropCall → List Nat
  | [] => []
  | c :: rest => base :: callOffsets (base + encCallLen c) rest

/-- ABI encoding of `InteropCall[]`: length word, one offset word per
element, then the element encodings in order. -/
def encCalls (cs : List InteropCall) : List Nat :=
  word cs.length ++ ((callOffsets (32 * cs.length) cs).map word).flatten ++
    (cs.map encCall).flatten

/-- Byte length of `encCalls`. -/
def encCallsLen (cs : List InteropCall) : Nat :=
  32 + 32 * cs.length + (cs.map encCallLen).sum

/-- ABI encoding of `BundleAttributes`: two offset words, then the two
`bytes` tails in field order. -/
def encAttributes (a : BundleAttributes) : List Nat :=
  word 64 ++ word (64 + encBytesLen a.executionAddress.length) ++
    encBytes a.executionAddress ++ encBytes a.unbundlerAddress

/-- ABI sequence encoding of the `InteropBundle` tuple: four static head
words, the offset words of the two dynamic fields, then their tails in
field order. -/
def encBundleSeq (b : InteropBundle) : List Nat :=
  wordB1 b.version ++ word b.sourceChainId ++ word b.destinationChainId ++
    word b.interopBundleSalt ++ word 192 ++
    word (192 + encCallsLen b.calls) ++ encCalls b.calls ++
    encAttributes b.bundleAttributes

/-- `encode_interop_bundle` from `src/abi.rs` (alloy `abi_encode` of the
struct): the struct is a single dynamic value, so the sequence encoding is
preceded by its offset word `32`. -/
def encode_interop_bundle (b : InteropBundle) : List Nat :=
  word 32 ++ encBundleSeq b

/-! ### Decoder (alloy `abi_decode` with validation) -/

/-- alloy's `take_word`: 32 bytes at `pos`, failing on buffer overrun. -/
def readWordAt (buf : List Nat) (pos : Nat) : Except String Nat :=
  if pos + 32 ≤ buf.length then .ok (beBytesToNat ((buf.drop pos).take 32))
  else .error "buffer overrun"

/-- Dynamic `bytes` at `pos`: length word then that many content bytes. -/
def decodeBytesAt (buf : List Nat) (pos : Nat) : Except String (List Nat) :=
  match readWordAt buf pos with
  | .error e => .error e
  | .ok len =>
      if pos + 32 + len ≤ buf.length then
        .ok ((buf.drop (pos + 32)).take len)
      else .error "buffer overrun"

/-- One `InteropCall` tuple at `pos`: the head words (validated as in
alloy: `bytes1` padding, `0/1` bool, 20-byte addresses) and the `data`
tail behind the offset read from the sixth head slot (child offsets are
relative to the start of the tuple). -/
def decodeCallAt (buf : List Nat) (pos : Nat) : Except String InteropCall :=
  match readWordAt buf pos with
  | .error e => .error e
  | .ok w0 =>
      if w0 % 2 ^ 248 ≠ 0 then .error "invalid bytes1"
      else
        match readWordAt buf (pos + 32) with
        | .error e => .error e
        | .ok w1 =>
            if 1 < w1 then .error "invalid bool"
            else
              match readWordAt buf (pos + 64) with
              | .error e => .error e
              | .ok w2 =>
                  if 2 ^ 160 ≤ w2 then .error "invalid address"
                  else
                    match readWordAt buf (pos + 96) with
                    | .error e => .error e
                    | .ok w3 =>
                        if 2 ^ 160 ≤ w3 then .error "invalid address"
                        else
                          match readWordAt buf (pos + 128) with
                          | .error e => .error e
                          | .ok w4 =>
                              match readWordAt buf (pos + 160) with
                              | .error e => .error e
                              | .ok off =>
                                  match decodeBytesAt buf (pos + off) with
                                  | .error e => .error e
                                  | .ok data =>
                                      .ok { version := w0 / 2 ^ 248
                                            shadowAccount := w1 = 1
                                            «to» := w2
                                            «from» := w3
                                            value := w4
                                            data := data }

/-- The elements of a dynamic array: `count` offset words consumed
sequentially from `headPos`, each element decoded at `base + offset`. -/
def decodeCallElems (buf : List Nat) (base headPos : Nat) :
    Nat → Except String (List InteropCall)
  | 0 => .ok []
  | count + 1 =>
      match readWordAt buf headPos with
      | .error e => .error e
      | .ok off =>
          match decodeCallAt buf (base + off) with
          | .error e => .error e
          | .ok c =>
              match decodeCallElems buf base (headPos + 32) count with
              | .error e => .error e
              | .ok rest => .ok (c :: rest)

/-- `InteropCall[]` at `pos`: length word, then the elements anchored just
after it. -/
def decodeCallsAt (buf : List Nat) (pos : Nat) :
    Except String (List InteropCall) :=
  match readWordAt buf pos with
  | .error e => .error e
  | .ok n => decodeCallElems buf (pos + 32) (pos + 32) n

/-- `BundleAttributes` at `pos`: two offset words, two `bytes` tails. -/
def decodeAttributesAt (buf : List Nat) (pos : Nat) :
    Except String BundleAttributes :=
  match readWordAt buf pos with
  | .error e => .error e
  | .ok o1 =>
      match readWordAt buf (pos + 32) with
      | .error e => .error e
      | .ok o2 =>
          match decodeBytesAt buf (pos + o1) with
          | .error e => .error e
          | .ok ea =>
              match decodeBytesAt buf (pos + o2) with
              | .error e => .error e
              | .ok ua =>
                  .ok { executionAddress := ea, unbundlerAddress := ua }

/-- The `InteropBundle` tuple at `pos`. -/
def decodeBundleSeqAt (buf : List Nat) (pos : Nat) :
    Except String InteropBundle :=
  match readWordAt buf pos with
  | .error e => .error e
  | .ok w0 =>
      if w0 % 2 ^ 248 ≠ 0 then .error "invalid bytes1"
      else
        match readWordAt buf (pos + 32) with
        | .error e => .error e
        | .ok w1 =>
            match readWordAt buf (pos + 64) with
            | .error e => .error e
            | .ok w2 =>
                match readWordAt buf (pos + 96) with
                | .error e => .error e
                | .ok w3 =>
                    match readWordAt buf (pos + 128) with
                    | .error e => .error e
                    | .ok o4 =>
                        match readWordAt buf (pos + 160) with
                        | .error e => .error e
                        | .ok o5 =>
                            match decodeCallsAt buf (pos + o4) with
                            | .error e => .error e
                            | .ok calls =>
                                match decodeAttributesAt buf (pos + o5) with
                                | .error e => .error e
                                | .ok attrs =>
                                    .ok { version := w0 / 2 ^ 248
                                          sourceChainId := w1
                                          destinationChainId := w2
                                          interopBundleSalt := w3
                                          calls := calls
                                          bundleAttributes := attrs }

/-- `InteropBundle::abi_decode` (alloy): the struct is a single dynamic
value, so an offset word is read first and the tuple decoded there. -/
def decode_interop_bundle (buf : List Nat) : Except String InteropBundle :=
  match readWordAt buf 0 with
  | .error e => .error e
  | .ok o => decodeBundleSeqAt buf o

/-! ### Length lemmas -/

@[simp] theorem word_length (n : Nat) : (word n).length = 32 :=
  natToBeBytes_length 32 n

@[simp] theorem wordB1_length (v : Nat) : (wordB1 v).length = 32 :=
  natToBeBytes_length 32 _

@[simp] theorem wordBool_length (b : Bool) : (wordBool b).length = 32 :=
  natToBeBytes_length 32 _

theorem pad32Len_lt (n : Nat) : pad32Len n < 32 := by
  unfold pad32Len
  omega

@[simp] theorem padRight_length (bs : List Nat) :
    (padRight bs).length = bs.length + pad32Len bs.length := by
  simp [padRight]

@[simp] theorem encBytes_length (bs : List Nat) :
    (encBytes bs).length = encBytesLen bs.length := by
  simp [encBytes, encBytesLen]
  omega

@[simp] theorem encCall_length (c : InteropCall) :
    (encCall c).length = encCallLen c := by
  simp [encCall, encCallLen]
  omega

theorem callOffsets_length (base : Nat) (cs : List InteropCall) :
    (callOffsets base cs).length = cs.length := by
  induction cs generalizing base with
  | nil => rfl
  | cons c rest ih => simp [callOffsets, ih]

theorem flatten_map_word_length (l : List Nat) :
    ((l.map word).flatten).length = 32 * l.length := by
  induction l with
  | nil => rfl
  | cons x rest ih =>
      simp only [List.map_cons, List.flatten_cons, List.length_append,
        word_length, List.length_cons, ih]
      ring

theorem flatten_map_encCall_length (cs : List InteropCall) :
    ((cs.map encCall).flatten).length = (cs.map encCallLen).sum := by
  induction cs with
  | nil => rfl
  | cons c rest ih =>
      simp only [List.map_cons, List.flatten_cons, List.length_append,
        encCall_length, List.sum_cons, ih]

@[simp] theorem encCalls_length (cs : List InteropCall) :
    (encCalls cs).length = encCallsLen cs := by
  simp only [encCalls, encCallsLen, List.length_append, word_length,
    flatten_map_word_length, callOffsets_length, flatten_map_encCall_length]

@[simp] theorem encAttributes_length (a : BundleAttributes) :
    (encAttributes a).length =
      128 + a.executionAddress.length + pad32Len a.executionAddress.length +
        a.unbundlerAddress.length + pad32Len a.unbundlerAddress.length := by
  simp [encAttributes, encBytesLen]
  omega

theorem callOffsets_append (base : Nat) (xs ys : List InteropCall) :
    callOffsets base (xs ++ ys) =
      callOffsets base xs ++
        callOffsets (base + (xs.map encCallLen).sum) ys := by
  induction xs generalizing base with
  | nil => simp [callOffsets]
  | cons c rest ih =>
      rw [List.cons_append, callOffsets, callOffsets, ih (base + encCallLen c)]
      simp only [List.map_cons, List.sum_cons, List.cons_append]
      rw [← Nat.add_assoc]

theorem map_sum_le (f : InteropCall → Nat) (l : List InteropCall) (B : Nat)
    (h : ∀ x ∈ l, f x ≤ B) : (l.map f).sum ≤ l.length * B := by
  induction l with
  | nil => simp
  | cons c rest ih =>
      simp only [List.map_cons, List.sum_cons, List.length_cons]
      have h1 := h c (List.mem_cons_self _ _)
      have h2 := ih (fun x hx => h x (List.mem_cons_of_mem _ hx))
      calc f c + (rest.map f).sum ≤ B + rest.length * B := by omega
        _ = (rest.length + 1) * B := by ring

theorem encCallLen_le (c : InteropCall) (h : c.data.length < 2 ^ 64) :
    encCallLen c ≤ 2 ^ 65 := by
  unfold encCallLen encBytesLen
  have := pad32Len_lt c.data.length
  have h64 : (2:ℕ) ^ 64 + 2 ^ 64 = 2 ^ 65 := by norm_num
  omega

/-- The total bound that every offset and length word of a valid bundle's
encoding respects. -/
theorem encCallsLen_bound (cs : List InteropCall)
    (hv : ∀ c ∈ cs, c.Valid) (hn : cs.length < 2 ^ 64) :
    encCallsLen cs < 2 ^ 140 := by
  unfold encCallsLen
  have hsum : (cs.map encCallLen).sum ≤ cs.length * 2 ^ 65 :=
    map_sum_le _ _ _ (fun c hc => encCallLen_le c (hv c hc).2.2.2.2.2)
  have h1 : cs.length * 2 ^ 65 < 2 ^ 64 * 2 ^ 65 :=
    (Nat.mul_lt_mul_right (by norm_num)).mpr hn
  have h2 : (2:ℕ) ^ 64 * 2 ^ 65 = 2 ^ 129 := by
    rw [← pow_add]
  have h3 : 32 * cs.length < 32 * 2 ^ 64 :=
    (Nat.mul_lt_mul_left (by norm_num)).mpr hn
  have h4 : 32 + 32 * 2 ^ 64 + 2 ^ 129 < 2 ^ 140 := by norm_num
  omega

/-! ### Decode specs on canonical encodings -/

theorem readWordAt_append (buf pre post : List Nat) (n pos : Nat)
    (hbuf : buf = pre ++ word n ++ post) (hpos : pos = pre.length)
    (hn : n < 2 ^ 256) : readWordAt buf pos = .ok n := by
  have hlen : buf.length = pos + 32 + post.length := by
    simp [hbuf, hpos]
    omega
  unfold readWordAt
  rw [if_pos (by omega)]
  have hdrop : buf.drop pos = word n ++ post := by
    rw [hbuf]
    simp only [List.append_assoc]
    exact drop_append_len _ _ pos hpos
  rw [hdrop, take_append_len _ _ 32 (word_length n).symm]
  rw [word, word_value n hn]

theorem decodeBytesAt_append (buf pre post bs : List Nat) (pos : Nat)
    (hbuf : buf = pre ++ encBytes bs ++ post) (hpos : pos = pre.length)
    (hlen : bs.length < 2 ^ 256) : decodeBytesAt buf pos = .ok bs := by
  have hw : readWordAt buf pos = .ok bs.length := by
    apply readWordAt_append buf pre (padRight bs ++ post) bs.length pos _
      hpos hlen
    rw [hbuf]
    simp [encBytes, List.append_assoc]
  unfold decodeBytesAt
  rw [hw]
  simp only []
  have hblen : buf.length =
      pos + 32 + bs.length + pad32Len bs.length + post.length := by
    simp [hbuf, hpos, encBytes, encBytesLen]
    omega
  rw [if_pos (by omega)]
  have hdrop : buf.drop (pos + 32) = padRight bs ++ post := by
    rw [hbuf]
    have hsplit : pre ++ encBytes bs ++ post =
        (pre ++ word bs.length) ++ (padRight bs ++ post) := by
      simp [encBytes, List.append_assoc]
    rw [hsplit]
    exact drop_append_len _ _ (pos + 32) (by simp [hpos])
  rw [hdrop]
  have htake : (padRight bs ++ post).take bs.length = bs := by
    have hsplit : padRight bs ++ post =
        bs ++ (List.replicate (pad32Len bs.length) 0 ++ post) := by
      simp [padRight]
    rw [hsplit]
    exact take_append_len _ _ _ rfl
  rw [htake]

theorem version_word_lt (v : Nat) (h : v < 256) : v * 2 ^ 248 < 2 ^ 256 := by
  have h1 : v * 2 ^ 248 < 256 * 2 ^ 248 :=
    (Nat.mul_lt_mul_right (by positivity)).mpr h
  have h2 : (256:ℕ) * 2 ^ 248 = 2 ^ 256 := by norm_num
  omega

theorem bool_word_lt (b : Bool) : (if b then 1 else 0) < 2 ^ 256 := by
  cases b <;> norm_num

theorem decodeCallAt_append (buf pre post : List Nat) (c : InteropCall)
    (pos : Nat) (hbuf : buf = pre ++ encCall c ++ post)
    (hpos : pos = pre.length) (hv : c.Valid) :
    decodeCallAt buf pos = .ok c := by
  obtain ⟨hver, hto, hfrom, hval, hdata, hdlen⟩ := hv
  have h256 : (2:ℕ) ^ 160 < 2 ^ 256 := by norm_num
  have hw0 : readWordAt buf pos = .ok (c.version * 2 ^ 248) := by
    apply readWordAt_append buf pre
      (wordBool c.shadowAccount ++ word c.«to» ++ word c.«from» ++
        word c.value ++ word 192 ++ encBytes c.data ++ post) _ pos _ hpos
      (version_word_lt c.version hver)
    rw [hbuf]
    simp [encCall, wordB1, List.append_assoc]
  have hw1 : readWordAt buf (pos + 32) =
      .ok (if c.shadowAccount then 1 else 0) := by
    apply readWordAt_append buf (pre ++ wordB1 c.version)
      (word c.«to» ++ word c.«from» ++ word c.value ++ word 192 ++
        encBytes c.data ++ post) _ (pos + 32) _ (by simp [hpos])
      (bool_word_lt c.shadowAccount)
    rw [hbuf]
    simp [encCall, wordBool, List.append_assoc]
  have hw2 : readWordAt buf (pos + 64) = .ok c.«to» := by
    apply readWordAt_append buf
      (pre ++ wordB1 c.version ++ wordBool c.shadowAccount)
      (word c.«from» ++ word c.value ++ word 192 ++ encBytes c.data ++ post)
      _ (pos + 64) _ (by simp [hpos]) (by omega)
    rw [hbuf]
    simp [encCall, List.append_assoc]
  have hw3 : readWordAt buf (pos + 96) = .ok c.«from» := by
    apply readWordAt_append buf
      (pre ++ wordB1 c.version ++ wordBool c.shadowAccount ++ word c.«to»)
      (word c.value ++ word 192 ++ encBytes c.data ++ post)
      _ (pos + 96) _ (by simp [hpos]) (by omega)
    rw [hbuf]
    simp [encCall, List.append_assoc]
  have hw4 : readWordAt buf (pos + 128) = .ok c.value := by
    apply readWordAt_append buf
      (pre ++ wordB1 c.version ++ wordBool c.shadowAccount ++ word c.«to» ++
        word c.«from») (word 192 ++ encBytes c.data ++ post)
      _ (pos + 128) _ (by simp [hpos]) hval
    rw [hbuf]
    simp [encCall, List.append_assoc]
  have hw5 : readWordAt buf (pos + 160) = .ok 192 := by
    apply readWordAt_append buf
      (pre ++ wordB1 c.version ++ wordBool c.shadowAccount ++ word c.«to» ++
        word c.«from» ++ word c.value) (encBytes c.data ++ post)
      _ (pos + 160) _ (by simp [hpos]) (by norm_num)
    rw [hbuf]
    simp [encCall, List.append_assoc]
  have hdatadec : decodeBytesAt buf (pos + 192) = .ok c.data := by
    apply decodeBytesAt_append buf
      (pre ++ wordB1 c.version ++ wordBool c.shadowAccount ++ word c.«to» ++
        word c.«from» ++ word c.value ++ word 192) post c.data (pos + 192)
      _ (by simp [hpos]) (by
        have : (2:ℕ) ^ 64 < 2 ^ 256 := by norm_num
        omega)
    rw [hbuf]
    simp [encCall, List.append_assoc]
  unfold decodeCallAt
  rw [hw0]
  simp only []
  rw [if_neg (by simp [Nat.mul_mod_left])]
  rw [hw1]
  simp only []
  rw [if_neg (by cases c.shadowAccount <;> simp)]
  rw [hw2]
  simp only []
  rw [if_neg (by omega)]
  rw [hw3]
  simp only []
  rw [if_neg (by omega)]
  rw [hw4]
  simp only []
  rw [hw5]
  simp only []
  rw [hdatadec]
  simp only []
  have hv2 : c.version * 2 ^ 248 / 2 ^ 248 = c.version :=
    Nat.mul_div_cancel _ (by positivity)
  have hb : (decide ((if c.shadowAccount then 1 else 0) = 1)) =
      c.shadowAccount := by
    cases c.shadowAccount <;> rfl
  rw [hv2, hb]

theorem decodeCallElems_spec (buf pre post : List Nat)
    (cs : List InteropCall) (hbuf : buf = pre ++ encCalls cs ++ post)
    (hv : ∀ c ∈ cs, c.Valid)
    (hbound : 32 * cs.length + (cs.map encCallLen).sum < 2 ^ 256) :
    ∀ rest done, cs = done ++ rest →
      decodeCallElems buf (pre.length + 32)
        (pre.length + 32 + 32 * done.length) rest.length = .ok rest := by
  intro rest
  induction rest with
  | nil => intro done hsplit; rfl
  | cons c rest' ih =>
      intro done hsplit
      have hbuf2 : buf = pre ++ word cs.length ++
          ((callOffsets (32 * cs.length) cs).map word).flatten ++
          (cs.map encCall).flatten ++ post := by
        rw [hbuf]
        simp [encCalls, List.append_assoc]
      have hsum : (cs.map encCallLen).sum =
          (done.map encCallLen).sum + encCallLen c +
            (rest'.map encCallLen).sum := by
        rw [hsplit]
        simp [List.map_append, List.sum_append]
        omega
      have hlen : cs.length = done.length + 1 + rest'.length := by
        rw [hsplit]
        simp
        omega
      have ho : 32 * cs.length + (done.map encCallLen).sum < 2 ^ 256 := by
        omega
      have hoffs : callOffsets (32 * cs.length) cs =
          callOffsets (32 * cs.length) done ++
            ((32 * cs.length + (done.map encCallLen).sum) ::
              callOffsets (32 * cs.length + (done.map encCallLen).sum +
                encCallLen c) rest') := by
        nth_rewrite 2 [hsplit]
        rw [callOffsets_append]
        rfl
      have htails : (cs.map encCall).flatten =
          (done.map encCall).flatten ++
            (encCall c ++ (rest'.map encCall).flatten) := by
        nth_rewrite 1 [hsplit]
        simp [List.map_append, List.append_assoc]
      -- the offset word for element `done.length`
      have hreadoff : readWordAt buf (pre.length + 32 + 32 * done.length) =
          .ok (32 * cs.length + (done.map encCallLen).sum) := by
        apply readWordAt_append buf
          (pre ++ word cs.length ++
            ((callOffsets (32 * cs.length) done).map word).flatten)
          (((callOffsets (32 * cs.length + (done.map encCallLen).sum +
              encCallLen c) rest').map word).flatten ++
            (cs.map encCall).flatten ++ post)
          _ _ ?_ ?_ ho
        · rw [hbuf2, hoffs]
          simp [List.append_assoc, List.map_append]
        · simp only [List.length_append, flatten_map_word_length,
            callOffsets_length, word_length]
      -- the element itself
      have helem : decodeCallAt buf
          (pre.length + 32 + (32 * cs.length +
            (done.map encCallLen).sum)) = .ok c := by
        apply decodeCallAt_append buf
          (pre ++ word cs.length ++
            ((callOffsets (32 * cs.length) cs).map word).flatten ++
            (done.map encCall).flatten)
          ((rest'.map encCall).flatten ++ post) c _ ?_ ?_
          (hv c (by rw [hsplit]; simp))
        · rw [hbuf2, htails]
          simp [List.append_assoc]
        · simp only [List.length_append, flatten_map_word_length,
            callOffsets_length, word_length, flatten_map_encCall_length]
          omega
      have hih := ih (done ++ [c]) (by rw [hsplit]; simp)
      rw [List.length_cons, decodeCallElems, hreadoff]
      simp only []
      rw [helem]
      simp only []
      have harith : pre.length + 32 + 32 * done.length + 32 =
          pre.length + 32 + 32 * (done ++ [c]).length := by
        simp
        ring
      rw [harith, hih]

theorem decodeCallsAt_spec (buf pre post : List Nat)
    (cs : List InteropCall) (pos : Nat)
    (hbuf : buf = pre ++ encCalls cs ++ post) (hpos : pos = pre.length)
    (hv : ∀ c ∈ cs, c.Valid)
    (hbound : 32 * cs.length + (cs.map encCallLen).sum < 2 ^ 256) :
    decodeCallsAt buf pos = .ok cs := by
  have hn : readWordAt buf pos = .ok cs.length := by
    apply readWordAt_append buf pre
      (((callOffsets (32 * cs.length) cs).map word).flatten ++
        (cs.map encCall).flatten ++ post) _ pos ?_ hpos (by omega)
    rw [hbuf]
    simp [encCalls, List.append_assoc]
  have helems := decodeCallElems_spec buf pre post cs hbuf hv hbound cs []
    (by simp)
  unfold decodeCallsAt
  rw [hn]
  simp only []
  simpa [hpos] using helems

theorem decodeAttributesAt_spec (buf pre post : List Nat)
    (a : BundleAttributes) (pos : Nat)
    (hbuf : buf = pre ++ encAttributes a ++ post) (hpos : pos = pre.length)
    (hea : a.executionAddress.length < 2 ^ 64)
    (hua : a.unbundlerAddress.length < 2 ^ 64) :
    decodeAttributesAt buf pos = .ok a := by
  have hpad := pad32Len_lt a.executionAddress.length
  have hpad2 := pad32Len_lt a.unbundlerAddress.length
  have h64 : (2:ℕ) ^ 64 < 2 ^ 256 := by norm_num
  have ho1 : readWordAt buf pos = .ok 64 := by
    apply readWordAt_append buf pre
      (word (64 + encBytesLen a.executionAddress.length) ++
        encBytes a.executionAddress ++ encBytes a.unbundlerAddress ++ post)
      _ pos ?_ hpos (by norm_num)
    rw [hbuf]
    simp [encAttributes, List.append_assoc]
  have ho2 : readWordAt buf (pos + 32) =
      .ok (64 + encBytesLen a.executionAddress.length) := by
    apply readWordAt_append buf (pre ++ word 64)
      (encBytes a.executionAddress ++ encBytes a.unbundlerAddress ++ post)
      _ (pos + 32) ?_ (by simp [hpos]) (by unfold encBytesLen; omega)
    rw [hbuf]
    simp [encAttributes, List.append_assoc]
  have hda : decodeBytesAt buf (pos + 64) = .ok a.executionAddress := by
    apply decodeBytesAt_append buf
      (pre ++ word 64 ++ word (64 + encBytesLen a.executionAddress.length))
      (encBytes a.unbundlerAddress ++ post) _ (pos + 64) ?_
      (by simp [hpos]) (by omega)
    rw [hbuf]
    simp [encAttributes, List.append_assoc]
  have hdu : decodeBytesAt buf
      (pos + (64 + encBytesLen a.executionAddress.length)) =
      .ok a.unbundlerAddress := by
    apply decodeBytesAt_append buf
      (pre ++ word 64 ++ word (64 + encBytesLen a.executionAddress.length) ++
        encBytes a.executionAddress) post _
      (pos + (64 + encBytesLen a.executionAddress.length)) ?_
      (by simp [hpos, encBytesLen]; omega) (by omega)
    rw [hbuf]
    simp [encAttributes, List.append_assoc]
  unfold decodeAttributesAt
  rw [ho1]
  simp only []
  rw [ho2]
  simp only []
  rw [hda]
  simp only []
  rw [hdu]

theorem decodeBundleSeqAt_spec (buf pre post : List Nat) (b : InteropBundle)
    (pos : Nat) (hbuf : buf = pre ++ encBundleSeq b ++ post)
    (hpos : pos = pre.length) (hv : b.Valid) :
    decodeBundleSeqAt buf pos = .ok b := by
  obtain ⟨hver, hsrc, hdst, hsalt, hcalls, hn, hea, heal, hua, hual⟩ := hv
  have hclen := encCallsLen_bound b.calls hcalls hn
  have h256 : (2:ℕ) ^ 140 < 2 ^ 256 := by norm_num
  have hw0 : readWordAt buf pos = .ok (b.version * 2 ^ 248) := by
    apply readWordAt_append buf pre
      (word b.sourceChainId ++ word b.destinationChainId ++
        word b.interopBundleSalt ++ word 192 ++
        word (192 + encCallsLen b.calls) ++ encCalls b.calls ++
        encAttributes b.bundleAttributes ++ post) _ pos ?_ hpos
      (version_word_lt b.version hver)
    rw [hbuf]
    simp [encBundleSeq, wordB1, List.append_assoc]
  have hw1 : readWordAt buf (pos + 32) = .ok b.sourceChainId := by
    apply readWordAt_append buf (pre ++ wordB1 b.version)
      (word b.destinationChainId ++ word b.interopBundleSalt ++ word 192 ++
        word (192 + encCallsLen b.calls) ++ encCalls b.calls ++
        encAttributes b.bundleAttributes ++ post) _ (pos + 32) ?_
      (by simp [hpos]) hsrc
    rw [hbuf]
    simp [encBundleSeq, List.append_assoc]
  have hw2 : readWordAt buf (pos + 64) = .ok b.destinationChainId := by
    apply readWordAt_append buf
      (pre ++ wordB1 b.version ++ word b.sourceChainId)
      (word b.interopBundleSalt ++ word 192 ++
        word (192 + encCallsLen b.calls) ++ encCalls b.calls ++
        encAttributes b.bundleAttributes ++ post) _ (pos + 64) ?_
      (by simp [hpos]) hdst
    rw [hbuf]
    simp [encBundleSeq, List.append_assoc]
  have hw3 : readWordAt buf (pos + 96) = .ok b.interopBundleSalt := by
    apply readWordAt_append buf
      (pre ++ wordB1 b.version ++ word b.sourceChainId ++
        word b.destinationChainId)
      (word 192 ++ word (192 + encCallsLen b.calls) ++ encCalls b.calls ++
        encAttributes b.bundleAttributes ++ post) _ (pos + 96) ?_
      (by simp [hpos]) hsalt
    rw [hbuf]
    simp [encBundleSeq, List.append_assoc]
  have hw4 : readWordAt buf (pos + 128) = .ok 192 := by
    apply readWordAt_append buf
      (pre ++ wordB1 b.version ++ word b.sourceChainId ++
        word b.destinationChainId ++ word b.interopBundleSalt)
      (word (192 + encCallsLen b.calls) ++ encCalls b.calls ++
        encAttributes b.bundleAttributes ++ post) _ (pos + 128) ?_
      (by simp [hpos]) (by norm_num)
    rw [hbuf]
    simp [encBundleSeq, List.append_assoc]
  have hw5 : readWordAt buf (pos + 160) =
      .ok (192 + encCallsLen b.calls) := by
    apply readWordAt_append buf
      (pre ++ wordB1 b.version ++ word b.sourceChainId ++
        word b.destinationChainId ++ word b.interopBundleSalt ++ word 192)
      (encCalls b.calls ++ encAttributes b.bundleAttributes ++ post) _
      (pos + 160) ?_ (by simp [hpos]) (by omega)
    rw [hbuf]
    simp [encBundleSeq, List.append_assoc]
  have hcallsdec : decodeCallsAt buf (pos + 192) = .ok b.calls := by
    apply decodeCallsAt_spec buf
      (pre ++ wordB1 b.version ++ word b.sourceChainId ++
        word b.destinationChainId ++ word b.interopBundleSalt ++ word 192 ++
        word (192 + encCallsLen b.calls))
      (encAttributes b.bundleAttributes ++ post) b.calls (pos + 192) ?_
      (by simp [hpos]) hcalls (by unfold encCallsLen at hclen; omega)
    rw [hbuf]
    simp [encBundleSeq, List.append_assoc]
  have hattrsdec : decodeAttributesAt buf
      (pos + (192 + encCallsLen b.calls)) =
      .ok b.bundleAttributes := by
    apply decodeAttributesAt_spec buf
      (pre ++ wordB1 b.version ++ word b.sourceChainId ++
        word b.destinationChainId ++ word b.interopBundleSalt ++ word 192 ++
        word (192 + encCallsLen b.calls) ++ encCalls b.calls) post
      b.bundleAttributes (pos + (192 + encCallsLen b.calls)) ?_
      (by simp [hpos]; omega) heal hual
    rw [hbuf]
    simp [encBundleSeq, List.append_assoc]
  unfold decodeBundleSeqAt
  rw [hw0]
  simp only []
  rw [if_neg (by simp [Nat.mul_mod_left])]
  rw [hw1]
  simp only []
  rw [hw2]
  simp only []
  rw [hw3]
  simp only []
  rw [hw4]
  simp only []
  rw [hw5]
  simp only []
  rw [hcallsdec]
  simp only []
  rw [hattrsdec]
  simp only []
  rw [Nat.mul_div_cancel _ (show (0:ℕ) < 2 ^ 248 by positivity)]

/-- **C1.** Round trip of the canonical bundle codec: for every valid
`InteropBundle`, decoding the canonical encoding returns the same bundle,
and re-encoding what was decoded is byte-exact. -/
theorem interop_bundle_round_trip (b : InteropBundle) (hv : b.Valid) :
    decode_interop_bundle (encode_interop_bundle b) = .ok b ∧
    ∀ b2, decode_interop_bundle (encode_interop_bundle b) = .ok b2 →
      encode_interop_bundle b2 = encode_interop_bundle b := by
  have hdec : decode_interop_bundle (encode_interop_bundle b) = .ok b := by
    have hbuf : encode_interop_bundle b =
        ([] : List Nat) ++ word 32 ++ (encBundleSeq b ++ []) := by
      simp [encode_interop_bundle]
    have h0 : readWordAt (encode_interop_bundle b) 0 = .ok 32 := by
      apply readWordAt_append _ [] (encBundleSeq b ++ []) 32 0 ?_ rfl
        (by norm_num)
      simpa using hbuf
    have hseq : decodeBundleSeqAt (encode_interop_bundle b) 32 = .ok b := by
      apply decodeBundleSeqAt_spec _ (word 32) [] b 32 ?_ (by simp) hv
      simp [encode_interop_bundle]
    unfold decode_interop_bundle
    rw [h0]
    exact hseq
  refine ⟨hdec, fun b2 h2 => ?_⟩
  rw [hdec] at h2
  rw [← Except.ok.inj h2]

/-- A concrete valid bundle exercising multiple calls, empty and non-empty
byte fields. -/
def exampleBundle : InteropBundle :=
  { version := 1, sourceChainId := 2, destinationChainId := 3,
    interopBundleSalt := 4,
    calls := [{ version := 1, shadowAccount := true, «to» := 5, «from» := 6,
                value := 7, data := [8, 9, 10] },
              { version := 0, shadowAccount := false, «to» := 11,
                «from» := 12, value := 13, data := [] }],
    bundleAttributes := { executionAddress := [1, 2, 3],
                          unbundlerAddress := [] } }

/-- Witness for C1 at `exampleBundle`. -/
theorem interop_bundle_round_trip_witness :
    exampleBundle.Valid ∧
    decode_interop_bundle (encode_interop_bundle exampleBundle) =
      .ok exampleBundle :=
  ⟨by decide, (interop_bundle_round_trip exampleBundle (by decide)).1⟩

end CastInterop
